import Mathlib

/-!
# TermDev dual live-tree engine — verification of the specification claims

Shallow embedding of the core data structures and algorithms of the
`termdev` repository (a terminal dashboard over the Chrome DevTools
Protocol): the log/network node stores, the flattener, the network
reconciler, the lazy-expansion state machine, and the viewport/follow
controller.

JavaScript strings are modelled as `List Char`; JS numbers that are used
as integers (scroll offsets, counters, timestamps, sizes) are modelled as
`Nat`/`Int` as appropriate.  Reference identity of unchanged subtrees is
modelled as structural equality (the observable consequence).

`format.ts` (`formatRemoteObject`, `formatTime`) is not present under the
repository sources; where its output is needed it is carried as an
abstract rendered string (a field of `RemoteObject`, resp. a function
parameter), as allowed for code missing from the sources.
-/

namespace TermDev

/-! ## String utilities (JS string semantics on `List Char`) -/

/-- ASCII lower-casing of one character, modelling the effect of JS
`String.prototype.toLowerCase` on ASCII input. -/
def lowerChar (c : Char) : Char :=
  if 'A' ≤ c ∧ c ≤ 'Z' then Char.ofNat (c.toNat + 32) else c

/-- `toLowerCase` on a JS string. -/
def lowerStr (s : List Char) : List Char := s.map lowerChar

/-- JS whitespace test (the characters relevant to `String.prototype.trim`
for the strings this program handles). -/
def isWs (c : Char) : Bool := c = ' ' ∨ c = '\t' ∨ c = '\n' ∨ c = '\r'

/-- `String.prototype.trim`. -/
def trimStr (s : List Char) : List Char :=
  ((s.dropWhile isWs).reverse.dropWhile isWs).reverse

/-- `String.prototype.trimEnd`. -/
def trimEndStr (s : List Char) : List Char :=
  (s.reverse.dropWhile isWs).reverse

/-- JS `hay.includes(needle)`: contiguous-substring test. -/
def strIncludes (needle : List Char) : List Char → Bool
  | [] => needle.isEmpty
  | c :: rest => needle.isPrefixOf (c :: rest) || strIncludes needle rest

/-- `utils/tree.ts` `splitLines`: `String(s).split("\n")`. -/
def splitLines : List Char → List (List Char)
  | [] => [[]]
  | c :: rest =>
    if c = '\n' then [] :: splitLines rest
    else
      match splitLines rest with
      | [] => [[c]]
      | h :: t => (c :: h) :: t

/-- `utils/tree.ts` `clamp(n, min, max) = Math.max(min, Math.min(max, n))`. -/
def clamp (n lo hi : Int) : Int := max lo (min hi n)

/-! ## Data model (`types/log.ts`, reconstructed from its uses) -/

/-- A remote value reference (CDP `RemoteObject`).  Only `objectId` is
inspected by the core; `preview` carries the rendering that the absent
`format.ts`'s `formatRemoteObject` would produce for the value. -/
structure RemoteObject where
  objectId : Option (List Char)
  preview : List Char
deriving DecidableEq, Repr

/-- Modelled from the spec: `format.ts` is absent from the sources; the
spec (§4.2) only requires "a formatted preview of every argument value",
carried here on the value itself. -/
def formatRemoteObject (r : RemoteObject) : List Char := r.preview

/-- The tagged node kinds of the display tree. -/
inductive NodeKind | text | entry | arg | prop | meta
deriving DecidableEq, Repr

/-- The role a network-store node plays (`net` field). -/
inductive NetRole | request | headers | response | body
deriving DecidableEq, Repr

/-- The `which` discriminator on network header/body nodes. -/
inductive NetWhich | request | response
deriving DecidableEq, Repr

/-- The `net` info attached to network-store nodes. -/
structure NetInfo where
  requestId : List Char
  role : NetRole
  which : Option NetWhich := none
deriving DecidableEq, Repr

/-- One display node (`LogNode` of `types/log.ts`).  JS nodes are plain
objects with optional fields; every field that some code path reads on an
arbitrary node is modelled as present-but-optional.  `children = none`
models an absent `children` field (distinct from an empty array). -/
inductive LogNode : Type where
  | mk
    (id : List Char)
    (kind : NodeKind)
    (text : Option (List Char))
    (label : Option (List Char))
    (args : Option (List RemoteObject))
    (timestamp : Option Nat)
    (expanded : Bool)
    (loading : Bool)
    (object : Option RemoteObject)
    (name : Option (List Char))
    (value : Option RemoteObject)
    (net : Option NetInfo)
    (children : Option (List LogNode))

namespace LogNode

def id : LogNode → List Char | mk i _ _ _ _ _ _ _ _ _ _ _ _ => i
def kind : LogNode → NodeKind | mk _ k _ _ _ _ _ _ _ _ _ _ _ => k
def text : LogNode → Option (List Char) | mk _ _ t _ _ _ _ _ _ _ _ _ _ => t
def label : LogNode → Option (List Char) | mk _ _ _ l _ _ _ _ _ _ _ _ _ => l
def args : LogNode → Option (List RemoteObject) | mk _ _ _ _ a _ _ _ _ _ _ _ _ => a
def timestamp : LogNode → Option Nat | mk _ _ _ _ _ ts _ _ _ _ _ _ _ => ts
def expanded : LogNode → Bool | mk _ _ _ _ _ _ e _ _ _ _ _ _ => e
def loading : LogNode → Bool | mk _ _ _ _ _ _ _ l _ _ _ _ _ => l
def object : LogNode → Option RemoteObject | mk _ _ _ _ _ _ _ _ o _ _ _ _ => o
def name : LogNode → Option (List Char) | mk _ _ _ _ _ _ _ _ _ n _ _ _ => n
def value : LogNode → Option RemoteObject | mk _ _ _ _ _ _ _ _ _ _ v _ _ => v
def net : LogNode → Option NetInfo | mk _ _ _ _ _ _ _ _ _ _ _ n _ => n
def children : LogNode → Option (List LogNode) | mk _ _ _ _ _ _ _ _ _ _ _ _ c => c

/-- `{ ...n, children: c }`. -/
def setChildren : LogNode → Option (List LogNode) → LogNode
  | mk i k t l a ts e ld o nm v nt _, c => mk i k t l a ts e ld o nm v nt c

/-- `{ ...n, expanded: e }`. -/
def setExpanded : LogNode → Bool → LogNode
  | mk i k t l a ts _ ld o nm v nt c, e => mk i k t l a ts e ld o nm v nt c

/-- `{ ...n, loading: b, children: c }`. -/
def setLoadingChildren : LogNode → Bool → Option (List LogNode) → LogNode
  | mk i k t l a ts e _ o nm v nt _, ld, c => mk i k t l a ts e ld o nm v nt c

/-- `{ ...n, label: l }`. -/
def setLabel : LogNode → Option (List Char) → LogNode
  | mk i k t _ a ts e ld o nm v nt c, l => mk i k t l a ts e ld o nm v nt c

/-- `{ ...n, label: l, children: c }`. -/
def setLabelChildren : LogNode → Option (List Char) → Option (List LogNode) → LogNode
  | mk i k t _ a ts e ld o nm v nt _, l, c => mk i k t l a ts e ld o nm v nt c

/-- `{ ...n, expanded: e, children: c }`. -/
def setExpandedChildren : LogNode → Bool → Option (List LogNode) → LogNode
  | mk i k t l a ts _ ld o nm v nt _, e, c => mk i k t l a ts e ld o nm v nt c

/-- `{ ...n, expanded: true, loading: true, children: c }` (auto-expanded
first argument of an entry). -/
def setExpLoadChildren : LogNode → Option (List LogNode) → LogNode
  | mk i k t l a ts _ _ o nm v nt _, c => mk i k t l a ts true true o nm v nt c

end LogNode

section AccessorLemmas

variable (i : List Char) (k : NodeKind) (t l : Option (List Char))
  (a : Option (List RemoteObject)) (ts : Option Nat) (e ld : Bool)
  (o : Option RemoteObject) (nm : Option (List Char)) (v : Option RemoteObject)
  (nt : Option NetInfo) (c : Option (List LogNode))

@[simp] theorem id_mk : (LogNode.mk i k t l a ts e ld o nm v nt c).id = i := rfl
@[simp] theorem kind_mk : (LogNode.mk i k t l a ts e ld o nm v nt c).kind = k := rfl
@[simp] theorem text_mk : (LogNode.mk i k t l a ts e ld o nm v nt c).text = t := rfl
@[simp] theorem label_mk : (LogNode.mk i k t l a ts e ld o nm v nt c).label = l := rfl
@[simp] theorem args_mk : (LogNode.mk i k t l a ts e ld o nm v nt c).args = a := rfl
@[simp] theorem timestamp_mk : (LogNode.mk i k t l a ts e ld o nm v nt c).timestamp = ts := rfl
@[simp] theorem expanded_mk : (LogNode.mk i k t l a ts e ld o nm v nt c).expanded = e := rfl
@[simp] theorem loading_mk : (LogNode.mk i k t l a ts e ld o nm v nt c).loading = ld := rfl
@[simp] theorem object_mk : (LogNode.mk i k t l a ts e ld o nm v nt c).object = o := rfl
@[simp] theorem name_mk : (LogNode.mk i k t l a ts e ld o nm v nt c).name = nm := rfl
@[simp] theorem value_mk : (LogNode.mk i k t l a ts e ld o nm v nt c).value = v := rfl
@[simp] theorem net_mk : (LogNode.mk i k t l a ts e ld o nm v nt c).net = nt := rfl
@[simp] theorem children_mk : (LogNode.mk i k t l a ts e ld o nm v nt c).children = c := rfl

@[simp] theorem setChildren_mk (c' : Option (List LogNode)) :
    (LogNode.mk i k t l a ts e ld o nm v nt c).setChildren c'
      = LogNode.mk i k t l a ts e ld o nm v nt c' := rfl
@[simp] theorem setExpanded_mk (e' : Bool) :
    (LogNode.mk i k t l a ts e ld o nm v nt c).setExpanded e'
      = LogNode.mk i k t l a ts e' ld o nm v nt c := rfl
@[simp] theorem setLoadingChildren_mk (ld' : Bool) (c' : Option (List LogNode)) :
    (LogNode.mk i k t l a ts e ld o nm v nt c).setLoadingChildren ld' c'
      = LogNode.mk i k t l a ts e ld' o nm v nt c' := rfl
@[simp] theorem setLabel_mk (l' : Option (List Char)) :
    (LogNode.mk i k t l a ts e ld o nm v nt c).setLabel l'
      = LogNode.mk i k t l' a ts e ld o nm v nt c := rfl
@[simp] theorem setLabelChildren_mk (l' : Option (List Char)) (c' : Option (List LogNode)) :
    (LogNode.mk i k t l a ts e ld o nm v nt c).setLabelChildren l' c'
      = LogNode.mk i k t l' a ts e ld o nm v nt c' := rfl
@[simp] theorem setExpandedChildren_mk (e' : Bool) (c' : Option (List LogNode)) :
    (LogNode.mk i k t l a ts e ld o nm v nt c).setExpandedChildren e' c'
      = LogNode.mk i k t l a ts e' ld o nm v nt c' := rfl
@[simp] theorem setExpLoadChildren_mk (c' : Option (List LogNode)) :
    (LogNode.mk i k t l a ts e ld o nm v nt c).setExpLoadChildren c'
      = LogNode.mk i k t l a ts true true o nm v nt c' := rfl

end AccessorLemmas

/-- A plain text node, as created by `appendTextLog`. -/
def textNode (i : List Char) (t : List Char) : LogNode :=
  .mk i .text (some t) none none none false false none none none none none

/-- A meta node, as created for loading/error/truncation markers. -/
def metaNode (i : List Char) (t : List Char) : LogNode :=
  .mk i .meta (some t) none none none false false none none none none none

/-- An entry node, as created by `appendEntryLog`. -/
def entryNode (i : List Char) (label : List Char) (args : List RemoteObject)
    (ts : Option Nat) : LogNode :=
  .mk i .entry none (some label) (some args) ts false false none none none none none

/-- An `arg` node, as created by `ensureEntryChildren`. -/
def argNode (i : List Char) (obj : RemoteObject) : LogNode :=
  .mk i .arg none none none none false false (some obj) none none none none

/-- A `prop` node, as created by `getProperties`. -/
def propNode (i : List Char) (name : List Char) (v : RemoteObject) : LogNode :=
  .mk i .prop none none none none false false none (some name) (some v) none none

/-- One flattened visible line (`FlatLogLine`). -/
structure FlatLogLine where
  nodeId : List Char
  parentId : Option (List Char)
  indent : Nat
  text : List Char
  expandable : Bool
  expanded : Bool
deriving DecidableEq, Repr

/-! ## Pure tree algorithms (`utils/tree.ts`) -/

/-- `utils/tree.ts` `isObjectExpandable`: a remote value with a non-empty
`objectId` string. -/
def isObjectExpandable : Option RemoteObject → Bool
  | some o => match o.objectId with
    | some oid => decide (oid.length > 0)
    | none => false
  | none => false

/-- The `expandable` flag recomputed by the flattener for one node. -/
def nodeExpandable (n : LogNode) : Bool :=
  match n.kind with
  | .entry =>
      (match n.args with | some a => decide (a.length > 0) | none => false)
      || (match n.children with | some c => decide (c.length > 0) | none => false)
      || n.loading
  | .arg => isObjectExpandable n.object
  | .prop => isObjectExpandable n.value
  | _ => false

/-- The rendered text of one node, as computed inside `flattenLogTree`. -/
def nodeText (n : LogNode) : List Char :=
  match n.kind with
  | .text => n.text.getD []
  | .meta => n.text.getD []
  | .entry =>
      let label := n.label.getD []
      let args := n.args.getD []
      let preview := List.intercalate [' '] (args.map formatRemoteObject)
      if preview.isEmpty then label else label ++ [' '] ++ preview
  | .arg => (n.object.map formatRemoteObject).getD []
  | .prop =>
      let name := n.name.getD ['?']
      let v := (n.value.map formatRemoteObject).getD ['u','n','d','e','f','i','n','e','d']
      name ++ [':', ' '] ++ v

/-- A node's (present) children are structurally smaller than the node. -/
theorem sizeOf_children_lt (n : LogNode) (cs : List LogNode)
    (h : n.children = some cs) : sizeOf cs < sizeOf n := by
  cases n with
  | mk i k t l a ts e ld o nm v nt c =>
    simp only [LogNode.children] at h
    subst h
    simp
    omega

mutual

/-- One node's contribution to `flattenLogTree`: its own line, then —
only if it is expanded and has non-empty children — its flattened
children one indent deeper. -/
def flattenNode : LogNode → Option (List Char) → Nat → List FlatLogLine
  | .mk i k t l a ts e ld o nm v nt c, parentId, indent =>
    let n : LogNode := .mk i k t l a ts e ld o nm v nt c
    let line : FlatLogLine :=
      { nodeId := i, parentId := parentId, indent := indent,
        text := nodeText n, expandable := nodeExpandable n, expanded := e }
    let sub :=
      if e then
        match c with
        | some cs => if cs.length > 0 then flattenLogTree cs (some i) (indent + 1) else []
        | none => []
      else []
    line :: sub

/-- `utils/tree.ts` `flattenLogTree`: depth-first pre-order walk,
descending only below expanded nodes with non-empty children. -/
def flattenLogTree : List LogNode → Option (List Char) → Nat → List FlatLogLine
  | [], _, _ => []
  | n :: rest, parentId, indent =>
    flattenNode n parentId indent ++ flattenLogTree rest parentId indent

end

mutual

/-- `findNodeById` on a single node: the node itself if its id matches,
otherwise a first match among its children. -/
def findInNode : LogNode → List Char → Option LogNode
  | .mk i k t l a ts e ld o nm v nt c, target =>
    if i = target then some (.mk i k t l a ts e ld o nm v nt c)
    else
      match c with
      | some cs => findNodeById cs target
      | none => none

/-- `utils/tree.ts` `findNodeById`: first match in depth-first pre-order. -/
def findNodeById : List LogNode → List Char → Option LogNode
  | [], _ => none
  | n :: rest, target =>
    match findInNode n target with
    | some found => some found
    | none => findNodeById rest target

end

mutual

/-- Does this node's subtree (itself included) carry the id? -/
def containsIdNode : LogNode → List Char → Bool
  | .mk i _ _ _ _ _ _ _ _ _ _ _ c, target =>
    (i = target : Bool)
    || (match c with
        | some cs => containsIdList cs target
        | none => false)

/-- Does some node of the forest (at any depth) carry this id? -/
def containsIdList : List LogNode → List Char → Bool
  | [], _ => false
  | n :: rest, target => containsIdNode n target || containsIdList rest target

end

mutual

/-- `updateNodeById` on a single root, with the JS `changed` flag made
explicit: `(true, updated node)` when the id was found in this subtree. -/
def updNode : LogNode → List Char → (LogNode → LogNode) → Bool × LogNode
  | .mk i k t l a ts e ld o nm v nt c, target, f =>
    let n : LogNode := .mk i k t l a ts e ld o nm v nt c
    if i = target then (true, f n)
    else
      match c with
      | some cs =>
        if cs.length > 0 then
          let r := updateNodeByIdAux cs target f
          if r.1 then (true, n.setChildren (some r.2)) else (false, n)
        else (false, n)
      | none => (false, n)

/-- `utils/tree.ts` `updateNodeById`, with the JS `changed` flag made
explicit.  In the source, `changed` records whether a node with the id was
found (at top level or in a recursive call, which returns the identical
array object exactly when its own flag is false). -/
def updateNodeByIdAux : List LogNode → List Char → (LogNode → LogNode) →
    Bool × List LogNode
  | [], _, _ => (false, [])
  | n :: rest, target, f =>
    let hd := updNode n target f
    let tl := updateNodeByIdAux rest target f
    (hd.1 || tl.1, hd.2 :: tl.2)

end

/-- `utils/tree.ts` `updateNodeById`: `changed ? next : nodes`. -/
def updateNodeById (nodes : List LogNode) (i : List Char)
    (f : LogNode → LogNode) : List LogNode :=
  let r := updateNodeByIdAux nodes i f
  if r.1 then r.2 else nodes

/-- What `updateNodeById` does to a single root: replace it by the updated
node if its id matches, rebuild only its `children` field if the id occurs
strictly below it, and leave it untouched (the identical object) otherwise. -/
def updOne (i : List Char) (f : LogNode → LogNode) (n : LogNode) : LogNode :=
  if n.id = i then f n
  else if containsIdList (n.children.getD []) i then
    n.setChildren (some (updateNodeById (n.children.getD []) i f))
  else n

theorem containsIdList_nil (i : List Char) : containsIdList [] i = false := rfl

theorem containsIdNode_eq (n : LogNode) (i : List Char) :
    containsIdNode n i =
      ((n.id = i : Bool) || containsIdList (n.children.getD []) i) := by
  cases n with
  | mk i' k t l a ts e ld o nm v nt c =>
    cases c with
    | some cs => rfl
    | none => simp [containsIdNode, LogNode.id, LogNode.children, containsIdList_nil]

theorem containsIdList_cons (n : LogNode) (rest : List LogNode) (i : List Char) :
    containsIdList (n :: rest) i =
      ((n.id = i : Bool) || containsIdList (n.children.getD []) i
        || containsIdList rest i) := by
  rw [containsIdList, containsIdNode_eq]

theorem updNode_eq (i : List Char) (f : LogNode → LogNode) (n : LogNode)
    (hch : updateNodeByIdAux (n.children.getD []) i f
      = (containsIdList (n.children.getD []) i,
         (n.children.getD []).map (updOne i f))) :
    updNode n i f = (containsIdNode n i, updOne i f n) := by
  cases n with
  | mk i' k t l a ts e ld o nm v nt c =>
    rw [containsIdNode_eq]
    cases c with
    | some cs =>
      simp only [children_mk, Option.getD_some] at hch
      by_cases hid : i' = i
      · simp [updNode, updOne, hid]
      · by_cases hlen : cs.length > 0
        · by_cases hc : containsIdList cs i
          · simp [updNode, updOne, hid, hlen, hch, hc, updateNodeById]
          · simp [updNode, updOne, hid, hlen, hch, hc]
        · have hnil : cs = [] := by
            cases cs with
            | nil => rfl
            | cons x xs => simp at hlen
          subst hnil
          simp [updNode, updOne, hid, containsIdList_nil]
    | none =>
      by_cases hid : i' = i
      · simp [updNode, updOne, hid]
      · simp [updNode, updOne, hid, containsIdList_nil]

theorem sizeOf_node_pos (n : LogNode) : 1 ≤ sizeOf n := by
  cases n
  simp
  omega

theorem updateNodeByIdAux_spec_bounded (i : List Char) (f : LogNode → LogNode) :
    ∀ (k : Nat) (nodes : List LogNode), sizeOf nodes ≤ k →
      updateNodeByIdAux nodes i f = (containsIdList nodes i, nodes.map (updOne i f)) := by
  intro k
  induction k with
  | zero =>
    intro nodes h
    exfalso
    cases nodes <;> simp at h
  | succ k ih =>
    intro nodes h
    match nodes with
    | [] => rfl
    | n :: rest =>
      have hsz : 1 + sizeOf n + sizeOf rest ≤ k + 1 := by simpa using h
      have hnp := sizeOf_node_pos n
      have hch : updateNodeByIdAux (n.children.getD []) i f
          = (containsIdList (n.children.getD []) i,
             (n.children.getD []).map (updOne i f)) := by
        apply ih
        cases hc : n.children with
        | some cs =>
          have := sizeOf_children_lt n cs hc
          simp only [hc, Option.getD_some]
          omega
        | none =>
          simp only [hc, Option.getD_none]
          simp
          omega
      have hn := updNode_eq i f n hch
      have hr := ih rest (by omega)
      rw [updateNodeByIdAux, hn, hr, containsIdList, List.map_cons]

theorem updateNodeByIdAux_spec (i : List Char) (f : LogNode → LogNode)
    (nodes : List LogNode) :
    updateNodeByIdAux nodes i f = (containsIdList nodes i, nodes.map (updOne i f)) :=
  updateNodeByIdAux_spec_bounded i f (sizeOf nodes) nodes le_rfl

/-! ## Constants (`utils/constants.ts`) -/

def LOG_MAX_LINES : Nat := 5000
def NET_MAX_ITEMS : Nat := 1500
def PROPERTY_LIMIT : Nat := 80
def HEADER_LIMIT : Nat := 120
def BODY_LINE_LIMIT : Nat := 300

/-- If the id does not occur in the forest, `updateNodeById` returns the
original forest (the same array object, in the source's reference terms). -/
theorem updateNodeById_not_found (nodes : List LogNode) (i : List Char)
    (f : LogNode → LogNode) (h : containsIdList nodes i = false) :
    updateNodeById nodes i f = nodes := by
  simp [updateNodeById, updateNodeByIdAux_spec, h]

/-- A root whose subtree does not carry the id is left untouched. -/
theorem updOne_not_found (i : List Char) (f : LogNode → LogNode) (n : LogNode)
    (hid : n.id ≠ i) (h : containsIdList (n.children.getD []) i = false) :
    updOne i f n = n := by
  simp [updOne, hid, h]

theorem map_updOne_not_found (i : List Char) (f : LogNode → LogNode) :
    ∀ nodes : List LogNode, containsIdList nodes i = false →
      nodes.map (updOne i f) = nodes
  | [], _ => rfl
  | n :: rest, h => by
    rw [containsIdList_cons] at h
    simp only [Bool.or_eq_false_iff] at h
    obtain ⟨⟨h1, h2⟩, h3⟩ := h
    rw [List.map_cons, updOne_not_found i f n (by simpa using h1) h2,
      map_updOne_not_found i f rest h3]

/-- The full characterization: `updateNodeById` maps every root through
`updOne` — containing roots get only their `children` rebuilt (recursively
likewise), all other roots are returned as-is. -/
theorem updateNodeById_eq_map (nodes : List LogNode) (i : List Char)
    (f : LogNode → LogNode) :
    updateNodeById nodes i f = nodes.map (updOne i f) := by
  by_cases h : containsIdList nodes i
  · simp [updateNodeById, updateNodeByIdAux_spec, h]
  · rw [updateNodeById_not_found nodes i f (by simpa using h),
      map_updOne_not_found i f nodes (by simpa using h)]

/-! ## Node identifiers

The id strings the program generates: `` `n${k}` `` from the per-store
monotonic counter, `` `${entryId}:arg:${i}` `` for materialized entry
arguments, and `` `prop_${j}_${t}` `` for property-fetch results (where
`t` is `Date.now()` at the fetch and `j` restarts at 1 on every call). -/

/-- One decimal digit as a character. -/
def digitChar (d : Nat) : Char :=
  match d with
  | 0 => '0' | 1 => '1' | 2 => '2' | 3 => '3' | 4 => '4'
  | 5 => '5' | 6 => '6' | 7 => '7' | 8 => '8' | _ => '9'

/-- Little-endian decimal digits, with structural fuel (`fuel ≥ n`
suffices, since the digit count never exceeds `n` for `n ≥ 1`). -/
def natDigitsRev (fuel : Nat) (n : Nat) : List Nat :=
  match fuel with
  | 0 => []
  | f + 1 => if n = 0 then [] else n % 10 :: natDigitsRev f (n / 10)

/-- JS `String(n)` for a natural number. -/
def natStr (n : Nat) : List Char :=
  if n = 0 then ['0'] else ((natDigitsRev n n).map digitChar).reverse

/-- `` `n${k}` `` — ids from `newNodeId` / the `nextNodeIdRef` counter. -/
def nId (k : Nat) : List Char := 'n' :: natStr k

/-- `` `${entryId}:arg:${i}` `` — ids from `ensureEntryChildren`. -/
def argIdOf (entryId : List Char) (i : Nat) : List Char :=
  entryId ++ [':', 'a', 'r', 'g', ':'] ++ natStr i

/-- `` `prop_${j+1}_${now}` `` — ids from `getProperties` in
`useCdpClient.ts`, whose `nodeCounter` restarts at 0 on every call. -/
def propIdOf (now : Nat) (j : Nat) : List Char :=
  ['p', 'r', 'o', 'p', '_'] ++ natStr (j + 1) ++ ['_'] ++ natStr now

/-! ## The log store (`hooks/useLogTree.ts`) -/

/-- The state owned by `useLogTree`: the forest, the monotonic id counter
(`nextNodeIdRef`), the per-store single-flight guard (`isExpandingRef`),
selection, search query, and the viewport fields. -/
structure LogStore where
  tree : List LogNode
  nextId : Nat
  isExpanding : Bool
  selected : Option (List Char)
  searchQuery : List Char
  followTail : Bool
  scrollTop : Int

/-- The empty initial store. -/
def emptyLogStore : LogStore :=
  { tree := [], nextId := 0, isExpanding := false, selected := none,
    searchQuery := [], followTail := true, scrollTop := 0 }

/-- The root-level filter predicate of `filteredLogTree` (`q` is the
already trimmed-and-lowercased query). -/
def rootMatches (q : List Char) (n : LogNode) : Bool :=
  let hay := lowerStr (n.label.getD [] ++ [' '] ++ n.text.getD [])
  let argHit :=
    match n.kind, n.args with
    | .entry, some args =>
      strIncludes q (lowerStr (List.intercalate [' '] (args.map formatRemoteObject)))
    | _, _ => false
  argHit || strIncludes q hay

/-- `filteredLogTree`: root-only filtering against the active query. -/
def filteredLogTree (query : List Char) (tree : List LogNode) : List LogNode :=
  let q := lowerStr (trimStr query)
  if q.isEmpty then tree else tree.filter (rootMatches q)

/-- The flattened visible sequence, as the `flatLogs` memo computes it. -/
def flatLogsOf (st : LogStore) : List FlatLogLine :=
  flattenLogTree (filteredLogTree st.searchQuery st.tree) none 0

/-- FIFO eviction after an append: drop from the front down to the cap. -/
def capTree (cap : Nat) (t : List LogNode) : List LogNode :=
  if t.length > cap then t.drop (t.length - cap) else t

/-- `appendTextLog` with the store cap as an explicit parameter
(`appendTextLog` itself instantiates it with `LOG_MAX_LINES`). -/
def appendTextLogAux (cap : Nat) (line : List Char) (st : LogStore) : LogStore :=
  let newLines := splitLines line
  let nodes := newLines.enum.map fun p => textNode (nId (st.nextId + p.1 + 1)) p.2
  { st with tree := capTree cap (st.tree ++ nodes),
            nextId := st.nextId + newLines.length }

/-- `appendTextLog`: split into sibling text nodes, append, evict. -/
def appendTextLog (line : List Char) (st : LogStore) : LogStore :=
  appendTextLogAux LOG_MAX_LINES line st

/-- `appendEntryLog`: append one unexpanded entry node, evict. -/
def appendEntryLog (label : List Char) (args : List RemoteObject)
    (ts : Option Nat) (st : LogStore) : LogStore :=
  { st with
    tree := capTree LOG_MAX_LINES (st.tree ++ [entryNode (nId (st.nextId + 1)) label args ts]),
    nextId := st.nextId + 1 }

/-- `clearLogs`: empty the forest, reset selection/scroll, re-enable
follow-tail.  The search query is not touched. -/
def clearLogs (st : LogStore) : LogStore :=
  { st with tree := [], selected := none, scrollTop := 0, followTail := true }

/-- `ensureEntryChildren`: materialize an entry's argument children once. -/
def ensureEntryChildren (n : LogNode) : LogNode :=
  if n.kind ≠ .entry then n
  else if (n.children.getD []).length > 0 then n
  else
    let args := n.args.getD []
    n.setChildren (some (args.enum.map fun p => argNode (argIdOf n.id p.1) p.2))

/-- An asynchronous fetch the expansion controller has issued: which
remote object to fetch and which node receives the result. -/
structure FetchIntent where
  objectId : List Char
  target : List Char
deriving DecidableEq, Repr

def loadingPropsText : List Char := "(loading properties...)".data
def propsErrMark : List Char := "[props] ! ".data

/-- The synchronous phase of `toggleExpandSelected`, up to (and
including) issuing the asynchronous `getProperties` fetch.  Returns the
updated store and the fetch intent, if any was issued. -/
def toggleExpandStart (st : LogStore) : LogStore × Option FetchIntent :=
  if st.isExpanding then (st, none) else
  let flat := flatLogsOf st
  if flat.isEmpty then (st, none) else
  match st.selected.orElse (fun _ => (flat.getLast?).map (·.nodeId)) with
  | none => (st, none)
  | some nodeId =>
    match findNodeById st.tree nodeId with
    | none => (st, none)
    | some node =>
      let expandable :=
        match node.kind with
        | .entry => match node.args with | some a => decide (a.length > 0) | none => false
        | .arg => isObjectExpandable node.object
        | .prop => isObjectExpandable node.value
        | _ => false
      if !expandable then (st, none) else
      let nextExpanded := !node.expanded
      match node.kind with
      | .entry =>
        let args := node.args.getD []
        let firstArg := args.head?
        let autoExpandArg0 :=
          nextExpanded && decide (args.length = 1) && isObjectExpandable firstArg
        let loadMetaId := nId (st.nextId + 1)
        let updater := fun n =>
          let ensured := ensureEntryChildren n
          if !autoExpandArg0 then ensured.setExpanded nextExpanded
          else
            match ensured.children.getD [] with
            | [] => ensured.setExpandedChildren nextExpanded (some (ensured.children.getD []))
            | first :: rest =>
              ensured.setExpandedChildren nextExpanded
                (some (first.setExpLoadChildren (some [metaNode loadMetaId loadingPropsText]) :: rest))
        let st' := { st with tree := updateNodeById st.tree nodeId updater,
                             nextId := if autoExpandArg0 then st.nextId + 1 else st.nextId,
                             isExpanding := if autoExpandArg0 then true else st.isExpanding }
        if autoExpandArg0 then
          (st', some { objectId := ((firstArg.bind (·.objectId)).getD []),
                       target := argIdOf nodeId 0 })
        else (st', none)
      | _ =>
        let tree1 := updateNodeById st.tree nodeId (·.setExpanded nextExpanded)
        if !nextExpanded then ({ st with tree := tree1 }, none) else
        let obj := if node.kind = .arg then node.object else node.value
        if !isObjectExpandable obj then ({ st with tree := tree1 }, none) else
        if (node.children.getD []).length > 0 && !node.loading then
          ({ st with tree := tree1 }, none)
        else
          let loadMetaId := nId (st.nextId + 1)
          let tree2 := updateNodeById tree1 nodeId
            (fun n => n.setLoadingChildren true (some [metaNode loadMetaId loadingPropsText]))
          ({ st with tree := tree2, nextId := st.nextId + 1, isExpanding := true },
            some { objectId := ((obj.bind (·.objectId)).getD []), target := nodeId })

/-- Successful completion of an issued `getProperties` fetch: replace the
target node's children with the fetched set, clear `loading`, release the
single-flight guard. -/
def completeOk (st : LogStore) (target : List Char) (fetched : List LogNode) :
    LogStore :=
  { st with
    tree := updateNodeById st.tree target
      (fun n => n.setLoadingChildren false (some fetched)),
    isExpanding := false }

/-- Failed completion (the `catch` arm): replace the target node's
children with a single error meta child, clear `loading`, release the
single-flight guard. -/
def completeErr (st : LogStore) (target : List Char) (err : List Char) :
    LogStore :=
  { st with
    tree := updateNodeById st.tree target
      (fun n => n.setLoadingChildren false
        (some [metaNode (nId (st.nextId + 1)) (propsErrMark ++ err)])),
    nextId := st.nextId + 1,
    isExpanding := false }

/-! ### A script runner over the log store, counting issued fetches -/

inductive LogCmd
  | select (i : List Char)
  | toggle
  | completeOk (fetched : List LogNode)
  | completeErr (err : List Char)

structure LogRun where
  store : LogStore
  pending : Option FetchIntent
  fetchCount : Nat

def logStep (r : LogRun) : LogCmd → LogRun
  | .select i => { r with store := { r.store with selected := some i } }
  | .toggle =>
    let p := toggleExpandStart r.store
    match p.2 with
    | some q => { store := p.1, pending := some q, fetchCount := r.fetchCount + 1 }
    | none => { r with store := p.1 }
  | .completeOk cs =>
    match r.pending with
    | some q => { store := completeOk r.store q.target cs, pending := none,
                  fetchCount := r.fetchCount }
    | none => r
  | .completeErr e =>
    match r.pending with
    | some q => { store := completeErr r.store q.target e, pending := none,
                  fetchCount := r.fetchCount }
    | none => r

def runLog (init : LogRun) (cmds : List LogCmd) : LogRun := cmds.foldl logStep init

/-! ## Viewport & follow controller (the follow-tail effect) -/

/-- The follow-tail recomputation effect of `useLogTree` / `useNetTree`:
given the freshly flattened sequence, recompute selection and scroll. -/
def recomputeFollow (flat : List FlatLogLine) (followTail : Bool)
    (visible : Nat) (selected : Option (List Char)) (scrollTop : Int) :
    Option (List Char) × Int :=
  if flat.length = 0 then (none, 0)
  else
    let lastId := (flat.getLast?).map (·.nodeId)
    let sel1 := match selected with | none => lastId | some s => some s
    if followTail then (lastId, max 0 ((flat.length : Int) - visible))
    else (sel1, clamp scrollTop 0 (max 0 ((flat.length : Int) - visible)))

/-! ## The network reconciler (`hooks/useNetTree.ts`, `useCdpClient.ts`)

`formatTime` lives in the absent `format.ts`; it is threaded as a function
parameter `fmtTime`, and the `Date.now()` fallback as a parameter `now`.
The JSON engine behind `tryPrettifyJson` (`JSON.parse` / `JSON.stringify`)
is threaded as a parameter `prettify` (`some` = the body parses and
pretty-prints to the given string, `none` = parse failure). -/

/-- One per-request record (`NetRecord` of `types/network.ts`,
reconstructed from its uses).  Every field except the key is optional. -/
structure NetRecord where
  requestId : List Char
  startTimestamp : Option Nat := none
  method : Option (List Char) := none
  url : Option (List Char) := none
  requestHeaders : Option (List (List Char × List Char)) := none
  postData : Option (List Char) := none
  initiator : Option (List Char) := none
  type : Option (List Char) := none
  status : Option Nat := none
  statusText : Option (List Char) := none
  mimeType : Option (List Char) := none
  protocol : Option (List Char) := none
  remoteIPAddress : Option (List Char) := none
  remotePort : Option Nat := none
  fromDiskCache : Option Bool := none
  fromServiceWorker : Option Bool := none
  responseHeaders : Option (List (List Char × List Char)) := none
  endTimestamp : Option Nat := none
  encodedDataLength : Option Nat := none
  errorText : Option (List Char) := none
  canceled : Option Bool := none
  responseBody : Option (List Char × Bool) := none
deriving DecidableEq, Repr

/-- The four network lifecycle events, carrying exactly the patch fields
the `useCdpClient.ts` handlers construct (an `Option` argument is a patch
key that may be explicitly `undefined`). -/
inductive NetEvent
  | requestStarted (ts : Option Nat) (method url : List Char)
      (headers : List (List Char × List Char))
      (postData initiator ty : Option (List Char))
  | responseReceived (status : Option Nat)
      (statusText mimeType protocol remoteIPAddress : Option (List Char))
      (remotePort : Option Nat) (fromDiskCache fromServiceWorker : Bool)
      (headers : List (List Char × List Char))
  | loadingFinished (ts : Option Nat) (bytes : Option Nat)
  | loadingFailed (ts : Option Nat) (errorText : List Char) (canceled : Bool)

/-- `{ ...prev, ...patch }` for one event's patch: exactly the patch's
keys are overwritten (even when their value is `undefined`), every other
field of the previous record survives. -/
def applyNetEvent (r : NetRecord) : NetEvent → NetRecord
  | .requestStarted ts m u h pd ini ty =>
    { r with startTimestamp := ts, method := some m, url := some u,
             requestHeaders := some h, postData := pd, initiator := ini,
             type := ty }
  | .responseReceived st stx mt pr ip port fdc fsw h =>
    { r with status := st, statusText := stx, mimeType := mt, protocol := pr,
             remoteIPAddress := ip, remotePort := port,
             fromDiskCache := some fdc, fromServiceWorker := some fsw,
             responseHeaders := some h }
  | .loadingFinished ts b => { r with endTimestamp := ts, encodedDataLength := b }
  | .loadingFailed ts e c =>
    { r with endTimestamp := ts, errorText := some e, canceled := some c }

/-- The `netByIdRef` map, as an association list keyed by request id. -/
def NetMap := List (List Char × NetRecord)

def mapGet (m : NetMap) (rid : List Char) : Option NetRecord :=
  (m.find? (fun p => p.1 = rid)).map (·.2)

def mapSet : NetMap → List Char → NetRecord → NetMap
  | [], rid, r => [(rid, r)]
  | p :: rest, rid, r =>
    if p.1 = rid then (rid, r) :: rest else p :: mapSet rest rid r

/-- `upsertNet(rid, patch)`: shallow-merge the event's patch into the
record for its request id, creating `{ requestId: rid }` if absent. -/
def upsertNetEvent (m : NetMap) (rid : List Char) (ev : NetEvent) : NetMap :=
  let prev := (mapGet m rid).getD { requestId := rid }
  mapSet m rid (applyNetEvent prev ev)

/-- `upsertNet(rid, { responseBody: body })` — the body-cache write. -/
def upsertNetBody (m : NetMap) (rid : List Char) (body : List Char × Bool) :
    NetMap :=
  let prev := (mapGet m rid).getD { requestId := rid }
  mapSet m rid { prev with responseBody := some body }

/-- `getNetLabel`: `` `[${time}] ${method} ${url}${tail}`.trimEnd() ``. -/
def getNetLabel (fmtTime : Nat → List Char) (now : Nat)
    (r : Option NetRecord) : List Char :=
  let time := fmtTime ((r.bind (·.startTimestamp)).getD now)
  let method := (r.bind (·.method)).getD []
  let url := (r.bind (·.url)).getD []
  let tail :=
    match r.bind (·.errorText) with
    | some e => [' ', '✖', ' '] ++ e
    | none =>
      match r.bind (·.status) with
      | some s => ' ' :: natStr s
      | none => []
  trimEndStr (['['] ++ time ++ [']', ' '] ++ method ++ [' '] ++ url ++ tail)

/-- `` `net_n${k}` `` — ids from the network store's `newNodeId`. -/
def netNId (k : Nat) : List Char := "net_n".data ++ natStr k

/-- An entry node as the network store constructs them. -/
def netEntry (i label : List Char) (children : Option (List LogNode))
    (info : NetInfo) : LogNode :=
  .mk i .entry none (some label) none none false false none none none (some info) children

/-- Strict lexicographic comparison standing in for
`a[0].localeCompare(b[0]) < 0`. -/
def lexLt : List Char → List Char → Bool
  | [], [] => false
  | [], _ :: _ => true
  | _ :: _, [] => false
  | a :: as, b :: bs => if a = b then lexLt as bs else decide (a < b)

/-- Insert into a sorted list, after every strictly smaller element (so
the overall sort is stable, like the JS engine's `Array.prototype.sort`). -/
def insertSorted (lt : α → α → Bool) (x : α) : List α → List α
  | [] => [x]
  | y :: ys => if lt y x then y :: insertSorted lt x ys else x :: y :: ys

/-- Stable sort by a strict comparator (models `entries.sort(...)`). -/
def stableSortBy (lt : α → α → Bool) : List α → List α
  | [] => []
  | x :: xs => insertSorted lt x (stableSortBy lt xs)

def moreHeadersText (k : Nat) : List Char :=
  "… (".data ++ natStr k ++ " more headers)".data

def moreLinesText (k : Nat) : List Char :=
  "… (".data ++ natStr k ++ " more lines)".data

/-- `buildHeadersChildren`, threading the id counter. -/
def buildHeadersChildren (headers : Option (List (List Char × List Char)))
    (k0 : Nat) : List LogNode × Nat :=
  let entries := stableSortBy (fun a b => lexLt a.1 b.1) (headers.getD [])
  let sliced := entries.take HEADER_LIMIT
  let cs := sliced.enum.map fun p =>
    textNode (netNId (k0 + p.1 + 1)) (p.2.1 ++ [':', ' '] ++ p.2.2)
  let k1 := k0 + sliced.length
  let (cs, k2) :=
    if entries.length > HEADER_LIMIT then
      (cs ++ [metaNode (netNId (k1 + 1)) (moreHeadersText (entries.length - HEADER_LIMIT))], k1 + 1)
    else (cs, k1)
  if cs.isEmpty then ([metaNode (netNId (k2 + 1)) "(no headers)".data], k2 + 1)
  else (cs, k2)

/-- `buildNetChildren`, threading the id counter in source order. -/
def buildNetChildren (records : NetMap) (rid : List Char) (k0 : Nat) :
    List LogNode × Nat :=
  let r := mapGet records rid
  let (meta1, k1) :=
    match r.bind (·.type) with
    | some ty => ([textNode (netNId (k0 + 1)) ("type: ".data ++ ty)], k0 + 1)
    | none => ([], k0)
  let (meta2, k2) :=
    match r.bind (·.initiator) with
    | some ini => (meta1 ++ [textNode (netNId (k1 + 1)) ("initiator: ".data ++ ini)], k1 + 1)
    | none => (meta1, k1)
  let (meta3, k3) :=
    match r.bind (·.encodedDataLength) with
    | some b => (meta2 ++ [textNode (netNId (k2 + 1)) ("bytes: ".data ++ natStr b)], k2 + 1)
    | none => (meta2, k2)
  let reqHeaders := r.bind (·.requestHeaders)
  let (reqH, k4) := buildHeadersChildren reqHeaders k3
  let reqHeadersNode := netEntry ("net:".data ++ rid ++ ":reqHeaders".data)
    ("Request Headers (".data ++ natStr (reqHeaders.getD []).length ++ ")".data)
    (some reqH) { requestId := rid, role := .headers, which := some .request }
  let resLineParts :=
    (match r.bind (·.status) with | some s => [natStr s] | none => [])
    ++ (match r.bind (·.statusText) with | some s => [s] | none => [])
    ++ (match r.bind (·.mimeType) with | some s => [s] | none => [])
  let (resMeta1, k5) :=
    match r.bind (·.protocol) with
    | some p => ([textNode (netNId (k4 + 1)) ("protocol: ".data ++ p)], k4 + 1)
    | none => ([], k4)
  let (resMeta2, k6) :=
    match r.bind (·.remoteIPAddress) with
    | some ip =>
      let port := match r.bind (·.remotePort) with
        | some p => ':' :: natStr p
        | none => []
      (resMeta1 ++ [textNode (netNId (k5 + 1)) ("remote: ".data ++ ip ++ port)], k5 + 1)
    | none => (resMeta1, k5)
  let (resMeta3, k7) :=
    if (r.bind (·.fromDiskCache)).getD false then
      (resMeta2 ++ [textNode (netNId (k6 + 1)) "fromDiskCache: true".data], k6 + 1)
    else (resMeta2, k6)
  let (resMeta4, k8) :=
    if (r.bind (·.fromServiceWorker)).getD false then
      (resMeta3 ++ [textNode (netNId (k7 + 1)) "fromServiceWorker: true".data], k7 + 1)
    else (resMeta3, k7)
  let resHeaders := r.bind (·.responseHeaders)
  let (resH, k9) := buildHeadersChildren resHeaders k8
  let resHeadersNode := netEntry ("net:".data ++ rid ++ ":resHeaders".data)
    ("Response Headers (".data ++ natStr (resHeaders.getD []).length ++ ")".data)
    (some resH) { requestId := rid, role := .headers, which := some .response }
  let bodyNode := netEntry ("net:".data ++ rid ++ ":body".data)
    "Response Body".data
    (some [metaNode (netNId (k9 + 1)) "(press z to load)".data])
    { requestId := rid, role := .body }
  let k10 := k9 + 1
  let responseNode := netEntry ("net:".data ++ rid ++ ":response".data)
    ("Response".data ++
      (if resLineParts.isEmpty then [] else ": ".data ++ List.intercalate [' '] resLineParts))
    (some ([resHeadersNode] ++ resMeta4 ++ [bodyNode]))
    { requestId := rid, role := .response }
  let reqBodyNode := netEntry ("net:".data ++ rid ++ ":reqBody".data)
    "Request Body".data
    (some [metaNode (netNId (k10 + 1)) "(press z to view)".data])
    { requestId := rid, role := .body, which := some .request }
  let k11 := k10 + 1
  let reqMeta := if (r.bind (·.postData)).isSome then [reqBodyNode] else []
  (meta3 ++ [reqHeadersNode] ++ reqMeta ++ [responseNode], k11)

/-- `tryPrettifyJson`, with the JSON engine abstracted as `prettify`. -/
def tryPrettifyJson (prettify : List Char → Option (List Char))
    (body : List Char) : List Char × Bool :=
  let trimmed := trimStr body
  if trimmed.head? = some '{' ∨ trimmed.head? = some '[' then
    match prettify trimmed with
    | some pretty => (pretty, true)
    | none => (body, false)
  else (body, false)

/-- `formatResponseBody`: `(lines, typeHint)`. -/
def formatResponseBody (prettify : List Char → Option (List Char))
    (body : List Char) (base64Encoded : Bool) : List (List Char) × List Char :=
  if base64Encoded then
    let preview := if body.length > 100 then body.take 100 ++ "...".data else body
    ([preview], "(base64 encoded)".data)
  else
    let p := tryPrettifyJson prettify body
    (splitLines p.1, if p.2 then "(json, formatted)".data else "(text)".data)

/-- The body-children block shared by the three body-rendering sites,
threading the id counter in source order (type-hint meta, sliced lines,
optional truncation meta). -/
def bodyChildrenOf (lines : List (List Char)) (hint : List Char) (k0 : Nat) :
    List LogNode × Nat :=
  let sliced := lines.take BODY_LINE_LIMIT
  let cs := metaNode (netNId (k0 + 1)) hint ::
    sliced.enum.map (fun p => textNode (netNId (k0 + 1 + p.1 + 1)) p.2)
  let k1 := k0 + 1 + sliced.length
  if lines.length > BODY_LINE_LIMIT then
    (cs ++ [metaNode (netNId (k1 + 1)) (moreLinesText (lines.length - BODY_LINE_LIMIT))], k1 + 1)
  else (cs, k1)

/-- The state owned by `useNetTree`. -/
structure NetStore where
  tree : List LogNode
  records : NetMap
  nextId : Nat
  isExpanding : Bool
  selected : Option (List Char)
  searchQuery : List Char
  followTail : Bool
  scrollTop : Int

def emptyNetStore : NetStore :=
  { tree := [], records := [], nextId := 0, isExpanding := false,
    selected := none, searchQuery := [], followTail := true, scrollTop := 0 }

/-- The network store's root-only filter (labels/texts only, no args). -/
def filteredNetTree (query : List Char) (tree : List LogNode) : List LogNode :=
  let q := lowerStr (trimStr query)
  if q.isEmpty then tree
  else tree.filter fun n =>
    strIncludes q (lowerStr (n.label.getD [] ++ [' '] ++ n.text.getD []))

def flatNetOf (st : NetStore) : List FlatLogLine :=
  flattenLogTree (filteredNetTree st.searchQuery st.tree) none 0

/-- `clearNetwork`: empty the forest and the record map, reset
selection/scroll, re-enable follow-tail, and reset the search query. -/
def clearNetwork (st : NetStore) : NetStore :=
  { st with tree := [], records := [], selected := none, scrollTop := 0,
            followTail := true, searchQuery := [] }

/-- `ensureNetRequestNode`: create the `net:<rid>` projection node if
absent (with FIFO eviction), else refresh its label. -/
def ensureNetRequestNode (fmtTime : Nat → List Char) (now : Nat)
    (rid : List Char) (st : NetStore) : NetStore :=
  let i := "net:".data ++ rid
  let label := getNetLabel fmtTime now (mapGet st.records rid)
  if (findNodeById st.tree i).isSome then
    { st with tree := updateNodeById st.tree i (fun n => n.setLabel (some label)) }
  else
    let next := st.tree ++ [netEntry i label none { requestId := rid, role := .request }]
    { st with tree := if next.length > NET_MAX_ITEMS then
        next.drop (next.length - NET_MAX_ITEMS) else next }

/-- `updateNetNodeLabel`: refresh the projection node's label; rebuild its
children only when already populated. -/
def updateNetNodeLabel (fmtTime : Nat → List Char) (now : Nat)
    (rid : List Char) (st : NetStore) : NetStore :=
  let i := "net:".data ++ rid
  let label := getNetLabel fmtTime now (mapGet st.records rid)
  match findNodeById st.tree i with
  | none => { st with tree := updateNodeById st.tree i (fun n => n.setLabel (some label)) }
  | some n =>
    if (n.children.getD []).length > 0 then
      let b := buildNetChildren st.records rid st.nextId
      let t := updateNodeById st.tree i (fun m => m.setLabelChildren (some label) (some b.1))
      { st with tree := t, nextId := b.2 }
    else
      let t := updateNodeById st.tree i (fun m => m.setLabelChildren (some label) m.children)
      { st with tree := t }

/-- The `tui.tsx` network callbacks: every event upserts the record and
ensures the projection node; every event after `request-started` also
refreshes the label (and populated children). -/
def onNetworkEvent (fmtTime : Nat → List Char) (now : Nat) (rid : List Char)
    (ev : NetEvent) (st : NetStore) : NetStore :=
  let st1 := { st with records := upsertNetEvent st.records rid ev }
  let st2 := ensureNetRequestNode fmtTime now rid st1
  match ev with
  | .requestStarted _ _ _ _ _ _ _ => st2
  | _ => updateNetNodeLabel fmtTime now rid st2

/-- An issued `getResponseBody` fetch. -/
structure NetFetchIntent where
  requestId : List Char
  target : List Char
deriving DecidableEq, Repr

/-- The synchronous phase of `toggleNetExpandSelected`, up to issuing the
asynchronous `getResponseBody` fetch. -/
def toggleNetExpandStart (prettify : List Char → Option (List Char))
    (st : NetStore) : NetStore × Option NetFetchIntent :=
  if st.isExpanding then (st, none) else
  let flat := flatNetOf st
  if flat.isEmpty then (st, none) else
  match st.selected.orElse (fun _ => (flat.getLast?).map (·.nodeId)) with
  | none => (st, none)
  | some nodeId =>
    match findNodeById st.tree nodeId with
    | none => (st, none)
    | some node =>
      let hasChildren := (node.children.getD []).length > 0
      let expandable := node.kind = .entry && (hasChildren || node.net.isSome)
      if !expandable then (st, none) else
      let nextExpanded := !node.expanded
      match node.net with
      | some info =>
        if info.role = .request then
          let rid := info.requestId
          if hasChildren then
            let t := updateNodeById st.tree nodeId (fun n => n.setExpandedChildren nextExpanded n.children)
            ({ st with tree := t }, none)
          else
            let b := buildNetChildren st.records rid st.nextId
            let t := updateNodeById st.tree nodeId (fun n => n.setExpandedChildren nextExpanded (some b.1))
            ({ st with tree := t, nextId := b.2 }, none)
        else if info.role = .body ∧ info.which = some .request then
          let rid := info.requestId
          let tree1 := updateNodeById st.tree nodeId (·.setExpanded nextExpanded)
          if !nextExpanded then ({ st with tree := tree1 }, none) else
          match (mapGet st.records rid).bind (·.postData) with
          | some pd =>
            let f := formatResponseBody prettify pd false
            let b := bodyChildrenOf f.1 f.2 st.nextId
            let t := updateNodeById tree1 nodeId (fun n => n.setChildren (some b.1))
            ({ st with tree := t, nextId := b.2 }, none)
          | none => ({ st with tree := tree1 }, none)
        else if info.role = .body then
          let rid := info.requestId
          let tree1 := updateNodeById st.tree nodeId (·.setExpanded nextExpanded)
          if !nextExpanded then ({ st with tree := tree1 }, none) else
          match (mapGet st.records rid).bind (·.responseBody) with
          | some rb =>
            let f := formatResponseBody prettify rb.1 rb.2
            let b := bodyChildrenOf f.1 f.2 st.nextId
            let t := updateNodeById tree1 nodeId (fun n => n.setChildren (some b.1))
            ({ st with tree := t, nextId := b.2 }, none)
          | none =>
            let loadId := netNId (st.nextId + 1)
            let tree2 := updateNodeById tree1 nodeId
              (fun n => n.setLoadingChildren true
                (some [metaNode loadId "(loading response body...)".data]))
            ({ st with tree := tree2, nextId := st.nextId + 1, isExpanding := true },
              some { requestId := rid, target := nodeId })
        else
          let t := updateNodeById st.tree nodeId (·.setExpanded nextExpanded)
          ({ st with tree := t }, none)
      | none =>
        let t := updateNodeById st.tree nodeId (·.setExpanded nextExpanded)
        ({ st with tree := t }, none)

def bodyErrMark : List Char := "[body] ! ".data

/-- Successful completion of a `getResponseBody` fetch: cache the body on
the record, render it, replace the target's children, clear `loading`,
release the guard. -/
def completeNetOk (prettify : List Char → Option (List Char)) (st : NetStore)
    (rid target : List Char) (body : List Char × Bool) : NetStore :=
  let records := upsertNetBody st.records rid body
  let f := formatResponseBody prettify body.1 body.2
  let b := bodyChildrenOf f.1 f.2 st.nextId
  let t := updateNodeById st.tree target (fun n => n.setLoadingChildren false (some b.1))
  { st with records := records, tree := t, nextId := b.2, isExpanding := false }

/-- Failed completion (the `catch` arm): a single `[body] ! …` meta child. -/
def completeNetErr (st : NetStore) (target err : List Char) : NetStore :=
  let t := updateNodeById st.tree target
    (fun n => n.setLoadingChildren false
      (some [metaNode (netNId (st.nextId + 1)) (bodyErrMark ++ err)]))
  { st with tree := t, nextId := st.nextId + 1, isExpanding := false }

/-! ### A script runner over the network store -/

inductive NetCmd
  | select (i : List Char)
  | toggle
  | completeOk (body : List Char × Bool)
  | completeErr (err : List Char)
  | event (rid : List Char) (ev : NetEvent)

structure NetRunGlobals where
  fmtTime : Nat → List Char
  now : Nat
  prettify : List Char → Option (List Char)

structure NetRun where
  store : NetStore
  pending : Option NetFetchIntent
  fetchCount : Nat

def netStep (g : NetRunGlobals) (r : NetRun) : NetCmd → NetRun
  | .select i => { r with store := { r.store with selected := some i } }
  | .toggle =>
    let p := toggleNetExpandStart g.prettify r.store
    match p.2 with
    | some q => { store := p.1, pending := some q, fetchCount := r.fetchCount + 1 }
    | none => { r with store := p.1 }
  | .completeOk body =>
    match r.pending with
    | some q => { store := completeNetOk g.prettify r.store q.requestId q.target body,
                  pending := none, fetchCount := r.fetchCount }
    | none => r
  | .completeErr e =>
    match r.pending with
    | some q => { store := completeNetErr r.store q.target e,
                  pending := none, fetchCount := r.fetchCount }
    | none => r
  | .event rid ev => { r with store := onNetworkEvent g.fmtTime g.now rid ev r.store }

def runNet (g : NetRunGlobals) (init : NetRun) (cmds : List NetCmd) : NetRun :=
  cmds.foldl (netStep g) init

/-! ## Shared fixtures for witnesses and counterexamples -/

/-- An expandable remote object (has a non-empty `objectId`). -/
def obA : RemoteObject := { objectId := some "o1".data, preview := "objA".data }

/-- A second expandable remote object. -/
def obB : RemoteObject := { objectId := some "o2".data, preview := "objB".data }

/-- An entry labelled `needle`, child of [`alphaRoot`]. -/
def needleChild : LogNode := entryNode "c1".data "needle".data [] none

/-- A root entry labelled `alpha` with one child labelled `needle`
(collapsed). -/
def alphaRoot : LogNode :=
  (entryNode "r1".data "alpha".data [] none).setChildren (some [needleChild])

/-- A log store holding one entry with two expandable arguments
(`nextId` already past the entry's id). -/
def twoArgStore : LogStore :=
  { emptyLogStore with tree := [entryNode (nId 1) "lbl".data [obA, obB] none],
                       nextId := 1 }

/-- A run starting from `twoArgStore` with nothing pending. -/
def twoArgRun : LogRun := { store := twoArgStore, pending := none, fetchCount := 0 }

/-- The expand / complete / collapse / re-expand script on the first
argument of the `twoArgStore` entry, with fetch result `cs`. -/
def roundTripScript (cs : List LogNode) : List LogCmd :=
  [.select "n1".data, .toggle, .select "n1:arg:0".data, .toggle,
   .completeOk cs, .toggle, .toggle]

/-! ## Claim theorems -/

/-- Claim C1 — Single-flight guard per store: while `isExpandingRef` is set on
a store, a second expand request on that store is dropped silently — the
synchronous phase returns the store completely unchanged (so the second
node stays collapsed with no loading marker) and issues no fetch; there
is no queue and the pending fetch is untouched.  Both `toggleExpandSelected`
(log store) and `toggleNetExpandSelected` (network store) guard this way. -/
theorem claim_C1_single_flight :
    (∀ st : LogStore, st.isExpanding = true → toggleExpandStart st = (st, none))
    ∧ (∀ (prettify : List Char → Option (List Char)) (ns : NetStore),
        ns.isExpanding = true → toggleNetExpandStart prettify ns = (ns, none)) := by
  constructor
  · intro st h
    rw [toggleExpandStart, if_pos h]
  · intro prettify ns h
    rw [toggleNetExpandStart, if_pos h]

/-- Witness for C1 at a concrete in-flight store. -/
theorem claim_C1_witness :
    toggleExpandStart { twoArgStore with isExpanding := true }
      = ({ twoArgStore with isExpanding := true }, none)
    ∧ toggleNetExpandStart (fun _ => none) { emptyNetStore with isExpanding := true }
      = ({ emptyNetStore with isExpanding := true }, none) :=
  ⟨claim_C1_single_flight.1 _ rfl, claim_C1_single_flight.2 _ _ rfl⟩

/-- Claim C7 — Point mutation is path-local and no-op-detectable:
`updateNodeById` maps every root through `updOne` — a root whose subtree
does not carry the id is returned as the identical object, the containing
root is rebuilt only along the path (all fields but `children` preserved,
recursively); and when no node carries the id the very same forest is
returned (the source returns the original array reference). -/
theorem claim_C7_update_path_local (nodes : List LogNode) (i : List Char)
    (f : LogNode → LogNode) :
    updateNodeById nodes i f = nodes.map (updOne i f)
    ∧ (∀ n : LogNode, n.id ≠ i → containsIdList (n.children.getD []) i = false →
        updOne i f n = n)
    ∧ (containsIdList nodes i = false → updateNodeById nodes i f = nodes) :=
  ⟨updateNodeById_eq_map nodes i f,
   fun n hn hc => updOne_not_found i f n hn hc,
   fun h => updateNodeById_not_found nodes i f h⟩

/-- Witness for C7: an id absent from a concrete forest is a no-op. -/
theorem claim_C7_witness :
    updateNodeById [alphaRoot] "zzz".data (fun n => n.setExpanded true) = [alphaRoot]
    ∧ updOne "zzz".data (fun n => n.setExpanded true) needleChild = needleChild :=
  ⟨(claim_C7_update_path_local [alphaRoot] "zzz".data _).2.2 (by decide),
   (claim_C7_update_path_local [alphaRoot] "zzz".data _).2.1 needleChild
     (by decide) (by decide)⟩

/-- Claim C10 — Clear asymmetry: `clearLogs` empties the forest, resets
selection and scroll, re-enables follow-tail, and leaves the log search
query (and the id counter and guard) untouched; `clearNetwork` does the
same for the network store and additionally empties the `NetRecord` map
and resets the network search query to the empty string. -/
theorem claim_C10_clear_asymmetry (st : LogStore) (ns : NetStore) :
    ((clearLogs st).tree = [] ∧ (clearLogs st).selected = none
      ∧ (clearLogs st).scrollTop = 0 ∧ (clearLogs st).followTail = true
      ∧ (clearLogs st).searchQuery = st.searchQuery
      ∧ (clearLogs st).nextId = st.nextId
      ∧ (clearLogs st).isExpanding = st.isExpanding)
    ∧ ((clearNetwork ns).tree = [] ∧ (clearNetwork ns).records = []
      ∧ (clearNetwork ns).selected = none ∧ (clearNetwork ns).scrollTop = 0
      ∧ (clearNetwork ns).followTail = true ∧ (clearNetwork ns).searchQuery = []
      ∧ (clearNetwork ns).nextId = ns.nextId
      ∧ (clearNetwork ns).isExpanding = ns.isExpanding) := by
  refine ⟨⟨rfl, rfl, rfl, rfl, rfl, rfl, rfl⟩, ⟨rfl, rfl, rfl, rfl, rfl, rfl, rfl, rfl⟩⟩

/-! ### Cap enforcement helpers (C3) -/

/-- The last `n` elements (what `slice(len - cap)` keeps). -/
def lastN (n : Nat) (l : List α) : List α := l.drop (l.length - n)

theorem capTree_eq_lastN (cap : Nat) (t : List LogNode) :
    capTree cap t = lastN cap t := by
  unfold capTree lastN
  by_cases h : t.length > cap
  · rw [if_pos h]
  · rw [if_neg h]
    have : t.length - cap = 0 := by omega
    rw [this, List.drop_zero]

theorem lastN_all (cap : Nat) (l : List α) (h : l.length ≤ cap) :
    lastN cap l = l := by
  unfold lastN
  have : l.length - cap = 0 := by omega
  rw [this, List.drop_zero]

theorem lastN_length_le (cap : Nat) (l : List α) : (lastN cap l).length ≤ cap := by
  simp [lastN]
  omega

theorem lastN_cons_of_ge (cap : Nat) (x : α) (l : List α) (h : cap ≤ l.length) :
    lastN cap (x :: l) = lastN cap l := by
  unfold lastN
  have h1 : (x :: l).length - cap = (l.length - cap) + 1 := by
    simp
    omega
  rw [h1, List.drop_succ_cons]

theorem lastN_append_lastN (cap : Nat) :
    ∀ (a b : List α), lastN cap (lastN cap a ++ b) = lastN cap (a ++ b)
  | [], b => by simp [lastN]
  | x :: a, b => by
    by_cases h : (x :: a).length ≤ cap
    · rw [lastN_all cap (x :: a) h]
    · have ha : cap ≤ a.length := by simp at h; omega
      rw [lastN_cons_of_ge cap x a ha, lastN_append_lastN cap a b, List.cons_append,
        lastN_cons_of_ge cap x (a ++ b) (by simp; omega)]

theorem lastN_map (n : Nat) (f : α → β) (l : List α) :
    (lastN n l).map f = lastN n (l.map f) := by
  simp [lastN, List.map_drop]

theorem splitLines_single (l : List Char) (h : '\n' ∉ l) : splitLines l = [l] := by
  induction l with
  | nil => rfl
  | cons c rest ih =>
    have hc : ¬ c = '\n' := fun hc => h (hc ▸ List.mem_cons_self c rest)
    have hr : '\n' ∉ rest := fun hm => h (List.mem_cons_of_mem c hm)
    rw [splitLines, if_neg hc, ih hr]

/-- The texts of the capped store after folding single-line appends:
always the last `cap` of everything ever appended. -/
theorem appendTexts_fold (cap : Nat) :
    ∀ (ls : List (List Char)) (st : LogStore),
      (∀ l ∈ ls, '\n' ∉ l) → st.tree.length ≤ cap →
      (ls.foldl (fun s l => appendTextLogAux cap l s) st).tree.map (fun n => n.text.getD [])
        = lastN cap (st.tree.map (fun n => n.text.getD []) ++ ls)
  | [], st, _, hlen => by
    rw [List.foldl_nil, List.append_nil, lastN_all cap _ (by simpa using hlen)]
  | l :: ls, st, hnl, hlen => by
    rw [List.foldl_cons]
    have hsplit : splitLines l = [l] :=
      splitLines_single l (hnl l (List.mem_cons_self l ls))
    have htree : (appendTextLogAux cap l st).tree
        = capTree cap (st.tree ++ [textNode (nId (st.nextId + 1)) l]) := by
      simp [appendTextLogAux, hsplit, List.enum]
    have hlen' : (appendTextLogAux cap l st).tree.length ≤ cap := by
      rw [htree, capTree_eq_lastN]
      exact lastN_length_le cap _
    rw [appendTexts_fold cap ls _ (fun x hx => hnl x (List.mem_cons_of_mem l hx)) hlen',
      htree, capTree_eq_lastN, lastN_map]
    have hm : (st.tree ++ [textNode (nId (st.nextId + 1)) l]).map (fun n => n.text.getD [])
        = st.tree.map (fun n => n.text.getD []) ++ [l] := by
      simp [textNode]
    rw [hm, lastN_append_lastN]
    simp

/-- Claim C3 — Cap enforcement by FIFO eviction: appending `cap + 1` single
text lines to an empty store capped at `cap` leaves exactly the most
recent `cap` lines in their original relative order (the oldest is gone);
and any single append leaves the tree equal to the last-`cap` suffix of
the old tree plus the new nodes, so the node count never exceeds the cap
and equals `min cap (old + new)`. -/
theorem claim_C3_cap_fifo :
    (∀ (cap : Nat) (ls : List (List Char)),
      ls.length = cap + 1 → (∀ l ∈ ls, '\n' ∉ l) →
      (ls.foldl (fun s l => appendTextLogAux cap l s) emptyLogStore).tree.map
          (fun n => n.text.getD [])
        = ls.drop 1)
    ∧ (∀ (line : List Char) (st : LogStore),
        (appendTextLog line st).tree
          = lastN LOG_MAX_LINES
              (st.tree ++ (splitLines line).enum.map
                (fun p => textNode (nId (st.nextId + p.1 + 1)) p.2))
        ∧ (appendTextLog line st).tree.length
            = min LOG_MAX_LINES (st.tree.length + (splitLines line).length)) := by
  constructor
  · intro cap ls hlen hnl
    rw [appendTexts_fold cap ls emptyLogStore hnl (by simp [emptyLogStore])]
    simp [emptyLogStore, lastN, hlen]
  · intro line st
    constructor
    · rw [show (appendTextLog line st).tree
          = capTree LOG_MAX_LINES
              (st.tree ++ (splitLines line).enum.map
                (fun p => textNode (nId (st.nextId + p.1 + 1)) p.2)) from rfl,
        capTree_eq_lastN]
    · rw [show (appendTextLog line st).tree
          = capTree LOG_MAX_LINES
              (st.tree ++ (splitLines line).enum.map
                (fun p => textNode (nId (st.nextId + p.1 + 1)) p.2)) from rfl,
        capTree_eq_lastN]
      simp [lastN]
      omega

/-- Witness for C3 at `cap = 2` with three lines. -/
theorem claim_C3_witness :
    (["a".data, "b".data, "c".data].foldl
        (fun s l => appendTextLogAux 2 l s) emptyLogStore).tree.map
        (fun n => n.text.getD [])
      = [["b".data, "c".data].head!, "c".data] :=
  (claim_C3_cap_fifo.1 2 ["a".data, "b".data, "c".data] (by decide)
    (by decide)).trans (by decide)

/-! ### Root-only filtering (C4) -/

@[simp] theorem label_setChildren (n : LogNode) (c : Option (List LogNode)) :
    (n.setChildren c).label = n.label := by cases n; rfl
@[simp] theorem text_setChildren (n : LogNode) (c : Option (List LogNode)) :
    (n.setChildren c).text = n.text := by cases n; rfl
@[simp] theorem kind_setChildren (n : LogNode) (c : Option (List LogNode)) :
    (n.setChildren c).kind = n.kind := by cases n; rfl
@[simp] theorem args_setChildren (n : LogNode) (c : Option (List LogNode)) :
    (n.setChildren c).args = n.args := by cases n; rfl
@[simp] theorem id_setChildren (n : LogNode) (c : Option (List LogNode)) :
    (n.setChildren c).id = n.id := by cases n; rfl
@[simp] theorem children_setChildren (n : LogNode) (c : Option (List LogNode)) :
    (n.setChildren c).children = c := by cases n; rfl

theorem strIncludes_nil (l : List Char) : strIncludes [] l = true := by
  cases l with
  | nil => rfl
  | cons c rest => simp [strIncludes, List.isPrefixOf]

theorem rootMatches_nil (n : LogNode) : rootMatches [] n = true := by
  simp [rootMatches, strIncludes_nil]

/-- Claim C4 — Root-only filtering: for every forest and query,
`filteredLogTree` is exactly a top-level `filter` with the
trimmed-and-lowercased query; the root predicate never inspects a node's
children (so non-matching roots disappear with their entire subtrees and
descendants are never consulted); concretely, a root entry labelled
`alpha` with one child labelled `needle` flattens to zero lines under the
query `needle` (whether or not the root is expanded), and under `alpha`
to the root plus, if the root is expanded, its child. -/
theorem claim_C4_root_only_filter :
    (∀ (q : List Char) (tree : List LogNode),
      filteredLogTree q tree = tree.filter (rootMatches (lowerStr (trimStr q))))
    ∧ (∀ (q : List Char) (n : LogNode) (c : Option (List LogNode)),
        rootMatches q (n.setChildren c) = rootMatches q n)
    ∧ flattenLogTree (filteredLogTree "needle".data [alphaRoot.setExpanded true]) none 0 = []
    ∧ flattenLogTree (filteredLogTree "needle".data [alphaRoot]) none 0 = []
    ∧ (flattenLogTree (filteredLogTree "alpha".data [alphaRoot.setExpanded true]) none 0).map
        (fun l => l.text) = ["alpha".data, "needle".data]
    ∧ (flattenLogTree (filteredLogTree "alpha".data [alphaRoot]) none 0).map
        (fun l => l.text) = ["alpha".data] := by
  refine ⟨?_, ?_, by decide, by decide, by decide, by decide⟩
  · intro q tree
    unfold filteredLogTree
    by_cases h : (lowerStr (trimStr q)).isEmpty
    · rw [if_pos h]
      have hq : lowerStr (trimStr q) = [] := by simpa [List.isEmpty_iff] using h
      rw [hq, (List.filter_eq_self).mpr (fun n _ => rootMatches_nil n)]
    · rw [if_neg h]
  · intro q n c
    cases n
    rfl

/-! ### Follow-tail viewport invariant (C6) -/

/-- Claim C6 — Follow-tail invariant: whenever the recomputation effect runs
with `followTail = true` on a non-empty flattened sequence (as it does
after a line is appended), the selection becomes the last flattened
line's id and the scroll offset becomes `max 0 (totalLines − visibleLines)`;
and for every input whatsoever the recomputed scroll offset lies in
`[0, max 0 (totalLines − visibleLines)]`. -/
theorem claim_C6_follow_tail :
    (∀ (flat : List FlatLogLine) (visible : Nat) (sel : Option (List Char)) (top : Int),
      flat ≠ [] →
      recomputeFollow flat true visible sel top
        = ((flat.getLast?).map (fun l => l.nodeId),
           max 0 ((flat.length : Int) - visible)))
    ∧ (∀ (flat : List FlatLogLine) (followT : Bool) (visible : Nat)
        (sel : Option (List Char)) (top : Int),
        0 ≤ (recomputeFollow flat followT visible sel top).2
        ∧ (recomputeFollow flat followT visible sel top).2
            ≤ max 0 ((flat.length : Int) - visible)) := by
  constructor
  · intro flat visible sel top hne
    have h0 : ¬ flat.length = 0 := fun h => hne (List.length_eq_zero.mp h)
    simp [recomputeFollow, h0]
  · intro flat followT visible sel top
    have hsnd : (recomputeFollow flat followT visible sel top).2
        = if flat.length = 0 then 0
          else if followT then max 0 ((flat.length : Int) - visible)
          else clamp top 0 (max 0 ((flat.length : Int) - visible)) := by
      unfold recomputeFollow
      by_cases h0 : flat.length = 0
      · simp [h0]
      · by_cases hf : followT = true
        · simp [h0, hf]
        · have hff : followT = false := by
            cases followT
            · rfl
            · exact absurd rfl hf
          simp [h0, hff]
    rw [hsnd]
    split_ifs
    · exact ⟨le_refl 0, le_max_left 0 _⟩
    · exact ⟨le_max_left 0 _, le_refl _⟩
    · unfold clamp
      exact ⟨le_max_left 0 _, max_le (le_max_left 0 _) (min_le_left _ _)⟩

/-- Witness for C6 at a one-line flattened sequence. -/
theorem claim_C6_witness :
    recomputeFollow
        [{ nodeId := "n1".data, parentId := none, indent := 0,
           text := "x".data, expandable := false, expanded := false }] true 1 none 5
      = (some "n1".data, 0) :=
  (claim_C6_follow_tail.1 _ 1 none 5 (by decide)).trans (by decide)

/-! ### Fetch-failure error sentinel (C8) -/

@[simp] theorem loading_setLoadingChildren (n : LogNode) (b : Bool)
    (c : Option (List LogNode)) : (n.setLoadingChildren b c).loading = b := by
  cases n; rfl
@[simp] theorem children_setLoadingChildren (n : LogNode) (b : Bool)
    (c : Option (List LogNode)) : (n.setLoadingChildren b c).children = c := by
  cases n; rfl
@[simp] theorem id_setLoadingChildren (n : LogNode) (b : Bool)
    (c : Option (List LogNode)) : (n.setLoadingChildren b c).id = n.id := by
  cases n; rfl
@[simp] theorem kind_setLoadingChildren (n : LogNode) (b : Bool)
    (c : Option (List LogNode)) : (n.setLoadingChildren b c).kind = n.kind := by
  cases n; rfl
@[simp] theorem expanded_setLoadingChildren (n : LogNode) (b : Bool)
    (c : Option (List LogNode)) : (n.setLoadingChildren b c).expanded = n.expanded := by
  cases n; rfl
@[simp] theorem label_setLoadingChildren (n : LogNode) (b : Bool)
    (c : Option (List LogNode)) : (n.setLoadingChildren b c).label = n.label := by
  cases n; rfl
@[simp] theorem text_setLoadingChildren (n : LogNode) (b : Bool)
    (c : Option (List LogNode)) : (n.setLoadingChildren b c).text = n.text := by
  cases n; rfl
@[simp] theorem args_setLoadingChildren (n : LogNode) (b : Bool)
    (c : Option (List LogNode)) : (n.setLoadingChildren b c).args = n.args := by
  cases n; rfl
@[simp] theorem object_setLoadingChildren (n : LogNode) (b : Bool)
    (c : Option (List LogNode)) : (n.setLoadingChildren b c).object = n.object := by
  cases n; rfl
@[simp] theorem value_setLoadingChildren (n : LogNode) (b : Bool)
    (c : Option (List LogNode)) : (n.setLoadingChildren b c).value = n.value := by
  cases n; rfl

/-- Claim C8 — Fetch-failure error sentinel with atomic recovery: the `catch`
arm of an expansion fetch is the total transition `completeErr` (resp.
`completeNetErr`) — the failure never escapes.  It rewrites only the
target node: that node's children become exactly one meta child whose
text is the failure message behind the `[props] ! ` (resp. `[body] ! `)
prefix, its `loading` flag is cleared, every other field of the node is
preserved, every node off the path to the target is the identical object,
the single-flight guard is released, and nothing else in the store (the
record map included) changes. -/
theorem claim_C8_error_sentinel (st : LogStore) (ns : NetStore)
    (target err : List Char) :
    ((completeErr st target err).tree
        = st.tree.map (updOne target (fun n => n.setLoadingChildren false
            (some [metaNode (nId (st.nextId + 1)) (propsErrMark ++ err)])))
      ∧ (∀ n : LogNode,
          (n.setLoadingChildren false
              (some [metaNode (nId (st.nextId + 1)) (propsErrMark ++ err)])).loading = false
          ∧ (n.setLoadingChildren false
              (some [metaNode (nId (st.nextId + 1)) (propsErrMark ++ err)])).children
              = some [metaNode (nId (st.nextId + 1)) (propsErrMark ++ err)]
          ∧ (n.setLoadingChildren false
              (some [metaNode (nId (st.nextId + 1)) (propsErrMark ++ err)])).id = n.id
          ∧ (n.setLoadingChildren false
              (some [metaNode (nId (st.nextId + 1)) (propsErrMark ++ err)])).kind = n.kind
          ∧ (n.setLoadingChildren false
              (some [metaNode (nId (st.nextId + 1)) (propsErrMark ++ err)])).expanded
              = n.expanded
          ∧ (n.setLoadingChildren false
              (some [metaNode (nId (st.nextId + 1)) (propsErrMark ++ err)])).object
              = n.object
          ∧ (n.setLoadingChildren false
              (some [metaNode (nId (st.nextId + 1)) (propsErrMark ++ err)])).value
              = n.value)
      ∧ (∀ n : LogNode, n.id ≠ target →
          containsIdList (n.children.getD []) target = false →
          updOne target (fun n => n.setLoadingChildren false
            (some [metaNode (nId (st.nextId + 1)) (propsErrMark ++ err)])) n = n)
      ∧ (completeErr st target err).isExpanding = false
      ∧ (completeErr st target err).selected = st.selected
      ∧ (completeErr st target err).searchQuery = st.searchQuery)
    ∧ ((completeNetErr ns target err).tree
        = ns.tree.map (updOne target (fun n => n.setLoadingChildren false
            (some [metaNode (netNId (ns.nextId + 1)) (bodyErrMark ++ err)])))
      ∧ (completeNetErr ns target err).records = ns.records
      ∧ (completeNetErr ns target err).isExpanding = false
      ∧ (completeNetErr ns target err).selected = ns.selected) := by
  refine ⟨⟨?_, ?_, ?_, rfl, rfl, rfl⟩, ⟨?_, rfl, rfl, rfl⟩⟩
  · exact updateNodeById_eq_map _ _ _
  · intro n
    refine ⟨by simp, by simp, by simp, by simp, by simp, by simp, by simp⟩
  · intro n hn hc
    exact updOne_not_found _ _ n hn hc
  · exact updateNodeById_eq_map _ _ _

/-- Witness for C8: the sentinel transition on a concrete store. -/
theorem claim_C8_witness :
    updOne "zzz".data
        (fun n => n.setLoadingChildren false
          (some [metaNode (nId (twoArgStore.nextId + 1)) (propsErrMark ++ "boom".data)]))
        needleChild
      = needleChild :=
  (claim_C8_error_sentinel twoArgStore emptyNetStore "zzz".data "boom".data).1.2.2.1
    needleChild (by decide) (by decide)

/-! ### Round-trip expand/collapse caching (C2) -/

/-- The comparator of `getProperties` (`useCdpClient.ts`): enumerable
properties first, then by name (`localeCompare`), as a strict order. -/
def propLt (a b : List Char × RemoteObject × Bool) : Bool :=
  (a.2.2 && !b.2.2) || ((a.2.2 == b.2.2) && lexLt a.1 b.1)

/-- The result construction of `getProperties` in `useCdpClient.ts`: sort,
slice to 80, map to `prop` nodes whose ids are `` `prop_${++n}_${Date.now()}` ``
with the counter restarting at 0 on every call (`now` is the call's
`Date.now()` millisecond), plus a truncation meta child past the limit. -/
def getPropertiesResult (now : Nat)
    (items : List (List Char × RemoteObject × Bool)) : List LogNode :=
  let sorted := stableSortBy propLt items
  let sliced := sorted.take 80
  let children := sliced.enum.map fun p => propNode (propIdOf now p.1) p.2.1 p.2.2.1
  if sorted.length > 80 then
    children ++ [metaNode (propIdOf now sliced.length)
      ("… (".data ++ natStr (sorted.length - 80) ++ " more properties)".data)]
  else children


/-- A store holding one entry with a single expandable argument. -/
def singleArgStore : LogStore :=
  { emptyLogStore with tree := [entryNode (nId 1) "e1".data [obA] none], nextId := 1 }

def singleArgRun : LogRun :=
  { store := singleArgStore, pending := none, fetchCount := 0 }

/-- Claim C2 (counterexample) — The claim fails as stated, twice over:
when the property fetch resolves with an *empty* child list, the
populated-children check (`children.length > 0`) fails on re-expansion,
so the expand → complete → collapse → re-expand script issues the fetch a
second time (counter 2, not 1); and re-expanding a single-argument entry
re-issues the argument's property fetch unconditionally (the auto-expand
path overwrites the cached children with a loading marker), even though
the first fetch returned a non-empty child list. -/
theorem claim_C2_counterexample :
    ((runLog twoArgRun (roundTripScript [])).fetchCount = 2
      ∧ ¬ (runLog twoArgRun (roundTripScript [])).fetchCount = 1)
    ∧ (runLog singleArgRun
          [.select "n1".data, .toggle,
           .completeOk (getPropertiesResult 5 [("x".data, obB, true)]),
           .toggle, .toggle]).fetchCount = 2 := by
  refine ⟨⟨?_, ?_⟩, ?_⟩
  · decide
  · decide
  · decide

/-- The expand / fetch / complete prefix that leaves a collapsed `prop`
node (`p1`, carrying an expandable value) with cached children in the
store, selection resting on it. -/
def propRoundPrefix : List LogCmd :=
  [.select "n1".data, .toggle, .select "n1:arg:0".data, .toggle,
   .completeOk [propNode "p1".data "x".data obB], .select "p1".data, .toggle,
   .completeOk [propNode "p2".data "y".data obA]]

/-- `propRoundPrefix` followed by collapsing and re-expanding the `prop`
node. -/
def propRoundTrip : List LogCmd := propRoundPrefix ++ [.toggle, .toggle]

theorem mapGet_mapSet_same :
    ∀ (m : NetMap) (rid : List Char) (r : NetRecord),
      mapGet (mapSet m rid r) rid = some r
  | [], rid, r => by simp [mapSet, mapGet, List.find?]
  | p :: rest, rid, r => by
    rw [mapSet]
    by_cases h : p.1 = rid
    · rw [if_pos h]
      simp [mapGet, List.find?]
    · rw [if_neg h]
      have hr := mapGet_mapSet_same rest rid r
      rw [mapGet] at hr ⊢
      rw [List.find?_cons_of_neg _ (by simp [h])]
      exact hr

/-- Claim C2 (amended) — Round-trip expand/collapse caching, amended: for
every store whose selection rests on an `arg` *or* `prop` node that is
already populated (non-empty children, not loading), expanding issues no
fetch and only flips `expanded` — so such a node whose fetch returned a
non-empty child set is fetched exactly once across
expand/collapse/re-expand; a successful network body fetch always leaves
the body cached on its request's record, and whenever a collapsed body
node's record holds a cached body, expanding it issues no fetch — so
network body fetches are never re-issued.  Concretely: the arg round trip
and the network body round trip count one fetch, and collapsing and
re-expanding a populated `prop` node adds no fetch to its trace.  Outside
this amended scope the fetch is re-issued: an empty property-fetch
result, and the single-argument entry auto-expand path (see the
counterexample). -/
theorem claim_C2_amended :
    (∀ (st : LogStore) (nodeId : List Char) (node : LogNode),
      st.isExpanding = false →
      st.selected = some nodeId →
      flatLogsOf st ≠ [] →
      findNodeById st.tree nodeId = some node →
      node.kind = .arg ∨ node.kind = .prop →
      isObjectExpandable (if node.kind = .arg then node.object else node.value) = true →
      node.expanded = false →
      0 < (node.children.getD []).length →
      node.loading = false →
      toggleExpandStart st
        = ({ st with tree := updateNodeById st.tree nodeId (fun n => n.setExpanded true) }, none))
    ∧ (∀ (prettify : List Char → Option (List Char)) (ns : NetStore)
        (nodeId rid : List Char) (node : LogNode) (rb : List Char × Bool),
        ns.isExpanding = false →
        ns.selected = some nodeId →
        flatNetOf ns ≠ [] →
        findNodeById ns.tree nodeId = some node →
        node.kind = .entry →
        node.net = some { requestId := rid, role := .body, which := none } →
        node.expanded = false →
        (mapGet ns.records rid).bind (fun r => r.responseBody) = some rb →
        (toggleNetExpandStart prettify ns).2 = none)
    ∧ (∀ (prettify : List Char → Option (List Char)) (st : NetStore)
        (rid target : List Char) (body : List Char × Bool),
        (mapGet (completeNetOk prettify st rid target body).records rid).bind
          (fun r => r.responseBody) = some body)
    ∧ (runLog twoArgRun (roundTripScript [propNode "p1".data "x".data obB])).fetchCount = 1
    ∧ (runLog twoArgRun propRoundPrefix).fetchCount = 2
    ∧ (runLog twoArgRun propRoundTrip).fetchCount = 2
    ∧ (runNet { fmtTime := fun _ => "t".data, now := 7, prettify := fun _ => none }
          { store := emptyNetStore, pending := none, fetchCount := 0 }
          [.event "r1".data (.requestStarted none "GET".data "http://a".data [] none none none),
           .event "r1".data (.responseReceived (some 200) none none none none none false false []),
           .event "r1".data (.loadingFinished none (some 512)),
           .select "net:r1".data, .toggle, .select "net:r1:body".data, .toggle,
           .completeOk ("QUJD".data, true), .toggle, .toggle]).fetchCount = 1 := by
  refine ⟨?_, ?_, ?_, by decide, by decide, by decide, by decide⟩
  · intro st nodeId node hguard hsel hflat hfind hkind hobj hexp hpop hload
    cases hfl : flatLogsOf st with
    | nil => exact absurd hfl hflat
    | cons a as =>
      rw [toggleExpandStart]
      rw [if_neg (by rw [hguard]; exact Bool.false_ne_true)]
      rcases hkind with hk | hk
      · have hobj' : isObjectExpandable node.object = true := by
          simpa [hk] using hobj
        simp only [hfl, List.isEmpty_cons, hsel, Option.orElse, hfind, hk, hobj',
          hexp, hload, hpop, Option.some.injEq]
        simp [hfind, hk, hobj', hexp, hload, hpop]
      · have hobj' : isObjectExpandable node.value = true := by
          simpa [hk] using hobj
        simp only [hfl, List.isEmpty_cons, hsel, Option.orElse, hfind, hk, hobj',
          hexp, hload, hpop, Option.some.injEq]
        simp [hfind, hk, hobj', hexp, hload, hpop]
  · intro prettify ns nodeId rid node rb hguard hsel hflat hfind hkind hnet hexp hrb
    cases hfl : flatNetOf ns with
    | nil => exact absurd hfl hflat
    | cons a as =>
      rw [toggleNetExpandStart]
      rw [if_neg (by rw [hguard]; exact Bool.false_ne_true)]
      simp only [hfl, List.isEmpty_cons, hsel, Option.orElse, hfind, hkind, hnet,
        hexp, hrb, Option.some.injEq]
      simp [hfind, hkind, hnet, hexp, hrb]
  · intro prettify st rid target body
    simp [completeNetOk, upsertNetBody, mapGet_mapSet_same]

/-- An `arg` node with already-populated (cached) children. -/
def popArgNode : LogNode :=
  (argNode "a1".data obA).setChildren (some [textNode "t1".data "v".data])

/-- A `prop` node with already-populated (cached) children. -/
def popPropNode : LogNode :=
  (propNode "p1".data "x".data obB).setChildren (some [textNode "t2".data "w".data])

/-- A store whose selection rests on the populated `arg` node. -/
def popArgStore : LogStore :=
  { emptyLogStore with tree := [popArgNode], selected := some "a1".data }

/-- A store whose selection rests on the populated `prop` node. -/
def popPropStore : LogStore :=
  { emptyLogStore with tree := [popPropNode], selected := some "p1".data }

/-- A network store whose selection rests on a collapsed body node while
its request's record already caches the body. -/
def cachedBodyStore : NetStore :=
  { emptyNetStore with
      tree := [netEntry "net:r1:body".data "Response Body".data
        (some [metaNode "net_n1".data "(press z to load)".data])
        { requestId := "r1".data, role := .body, which := none }],
      records := [("r1".data,
        { requestId := "r1".data, responseBody := some ("QUJD".data, true) })],
      selected := some "net:r1:body".data }

/-- Witness for the amended C2: a populated `arg` node, a populated
`prop` node, and a cached network body, each at a concrete store. -/
theorem claim_C2_amended_witness :
    toggleExpandStart popArgStore
      = ({ popArgStore with tree := updateNodeById popArgStore.tree "a1".data (fun n => n.setExpanded true) }, none)
    ∧ toggleExpandStart popPropStore
      = ({ popPropStore with tree := updateNodeById popPropStore.tree "p1".data (fun n => n.setExpanded true) }, none)
    ∧ (toggleNetExpandStart (fun _ => none) cachedBodyStore).2 = none
    ∧ (mapGet (completeNetOk (fun _ => none) emptyNetStore "r1".data "x".data
        ("QUJD".data, true)).records "r1".data).bind (fun r => r.responseBody)
        = some ("QUJD".data, true) :=
  ⟨claim_C2_amended.1 popArgStore "a1".data popArgNode rfl rfl (by decide) rfl
      (Or.inl rfl) rfl rfl (by decide) rfl,
   claim_C2_amended.1 popPropStore "p1".data popPropNode rfl rfl (by decide) rfl
      (Or.inr rfl) rfl rfl (by decide) rfl,
   claim_C2_amended.2.1 (fun _ => none) cachedBodyStore "net:r1:body".data "r1".data
      (netEntry "net:r1:body".data "Response Body".data
        (some [metaNode "net_n1".data "(press z to load)".data])
        { requestId := "r1".data, role := .body, which := none })
      ("QUJD".data, true) rfl rfl (by decide) rfl rfl rfl rfl rfl,
   claim_C2_amended.2.2.1 (fun _ => none) emptyNetStore "r1".data "x".data
      ("QUJD".data, true)⟩

/-! ### Patch merge completeness (C5) -/

theorem trimEndStr_snoc (xs : List Char) (c : Char) (h : isWs c = false) :
    trimEndStr (xs ++ [c]) = xs ++ [c] := by
  unfold trimEndStr
  rw [List.reverse_append]
  simp [List.dropWhile_cons, h]

theorem strIncludes_append_left (needle ys : List Char)
    (h : strIncludes needle ys = true) :
    ∀ xs : List Char, strIncludes needle (xs ++ ys) = true
  | [] => h
  | c :: xs => by
    rw [List.cons_append, strIncludes, strIncludes_append_left needle ys h xs]
    simp

/-- The network-event fixtures of the C5 trace. -/
def evStart : NetEvent :=
  .requestStarted none "GET".data "http://a".data [] none none none
def evResp : NetEvent :=
  .responseReceived (some 200) none none none none none false false []
def evFin : NetEvent := .loadingFinished none (some 512)

/-- The C5 pipeline: the three events of the claim flowing through the
`tui.tsx` callbacks into the reconciler and the network store. -/
def c5Store (fmtTime : Nat → List Char) (now : Nat) : NetStore :=
  (runNet { fmtTime := fmtTime, now := now, prettify := fun _ => none }
    { store := emptyNetStore, pending := none, fetchCount := 0 }
    [.event "r1".data evStart, .event "r1".data evResp, .event "r1".data evFin]).store

/-- The record the C5 trace accumulates. -/
def c5Record : NetRecord :=
  { requestId := "r1".data, method := some "GET".data, url := some "http://a".data,
    requestHeaders := some [], status := some 200, fromDiskCache := some false,
    fromServiceWorker := some false, responseHeaders := some [],
    encodedDataLength := some 512 }


theorem strIncludes_cons (n : List Char) (c : Char) (l : List Char)
    (h : strIncludes n l = true) : strIncludes n (c :: l) = true := by
  rw [strIncludes, h]
  simp

theorem trimEndStr_cons_append (a : Char) (t X : List Char) (c : Char)
    (r : List Char) (hrev : X.reverse = c :: r) (hwc : isWs c = false) :
    trimEndStr (a :: (t ++ X)) = a :: (t ++ X) := by
  unfold trimEndStr
  have hrw : (a :: (t ++ X)).reverse = c :: (r ++ (t.reverse ++ [a])) := by
    rw [List.reverse_cons, List.reverse_append, hrev]
    simp [List.append_assoc]
  rw [hrw, List.dropWhile_cons, hwc]
  simp only [Bool.false_eq_true, if_false]
  rw [← hrw, List.reverse_reverse]



/-- Claim C5 — Patch merge completeness: every inbound network event is a
shallow merge into its request's record — fields the event's patch does
not name survive (shown here for the fields the claim exercises) — so
after request-started(`GET http://a`), response-received(`200`),
loading-finished(`512 bytes`), the single record holds method, url,
status and byte count simultaneously; and for every clock rendering, the
`net:r1` projection node's label after the three events is exactly
`getNetLabel` of that record and contains `GET http://a 200`. -/
theorem claim_C5_patch_merge :
    (∀ (r : NetRecord) (ts b : Option Nat),
        (applyNetEvent r (.loadingFinished ts b)).method = r.method
      ∧ (applyNetEvent r (.loadingFinished ts b)).url = r.url
      ∧ (applyNetEvent r (.loadingFinished ts b)).status = r.status
      ∧ (applyNetEvent r (.loadingFinished ts b)).statusText = r.statusText
      ∧ (applyNetEvent r (.loadingFinished ts b)).requestHeaders = r.requestHeaders
      ∧ (applyNetEvent r (.loadingFinished ts b)).responseHeaders = r.responseHeaders
      ∧ (applyNetEvent r (.loadingFinished ts b)).responseBody = r.responseBody
      ∧ (applyNetEvent r (.loadingFinished ts b)).endTimestamp = ts
      ∧ (applyNetEvent r (.loadingFinished ts b)).encodedDataLength = b)
    ∧ (∀ (r : NetRecord) (s : Option Nat)
        (stx mt pr ip : Option (List Char)) (port : Option Nat) (fdc fsw : Bool)
        (h : List (List Char × List Char)),
        (applyNetEvent r (.responseReceived s stx mt pr ip port fdc fsw h)).method = r.method
      ∧ (applyNetEvent r (.responseReceived s stx mt pr ip port fdc fsw h)).url = r.url
      ∧ (applyNetEvent r (.responseReceived s stx mt pr ip port fdc fsw h)).startTimestamp
          = r.startTimestamp
      ∧ (applyNetEvent r (.responseReceived s stx mt pr ip port fdc fsw h)).postData
          = r.postData
      ∧ (applyNetEvent r (.responseReceived s stx mt pr ip port fdc fsw h)).requestHeaders
          = r.requestHeaders
      ∧ (applyNetEvent r (.responseReceived s stx mt pr ip port fdc fsw h)).status = s)
    ∧ mapGet (upsertNetEvent (upsertNetEvent (upsertNetEvent [] "r1".data evStart)
        "r1".data evResp) "r1".data evFin) "r1".data = some c5Record
    ∧ (c5Record.method = some "GET".data ∧ c5Record.url = some "http://a".data
      ∧ c5Record.status = some 200 ∧ c5Record.encodedDataLength = some 512)
    ∧ (∀ (fT : Nat → List Char) (now : Nat),
        ((findNodeById (c5Store fT now).tree ("net:r1".data)).map
          (fun n => n.label.getD [])).getD []
          = getNetLabel fT now (some c5Record))
    ∧ (∀ (fT : Nat → List Char) (now : Nat),
        strIncludes "GET http://a 200".data (getNetLabel fT now (some c5Record)) = true) := by
  refine ⟨?_, ?_, by decide, by decide, ?_, ?_⟩
  · intro r ts b
    exact ⟨rfl, rfl, rfl, rfl, rfl, rfl, rfl, rfl, rfl⟩
  · intro r s stx mt pr ip port fdc fsw h
    exact ⟨rfl, rfl, rfl, rfl, rfl, rfl⟩
  · intro fT now
    simp [c5Store, runNet, netStep, onNetworkEvent, upsertNetEvent, applyNetEvent,
      mapGet, mapSet, ensureNetRequestNode, updateNetNodeLabel, emptyNetStore,
      findNodeById, findInNode, updateNodeById, updateNodeByIdAux, updNode,
      netEntry, NET_MAX_ITEMS, evStart, evResp, evFin, List.find?, c5Record]
  · intro fT now
    have h1 : getNetLabel fT now (some c5Record)
        = trimEndStr ('[' :: (fT now ++ (']' :: ' ' :: "GET http://a 200".data))) := by
      simp [getNetLabel, c5Record, List.append_assoc,
        (by decide : natStr 200 = ['2', '0', '0'])]
    rw [h1, trimEndStr_cons_append '[' (fT now) _ '0'
      ("] GET http://a 200".data.reverse.tail) (by decide) (by decide)]
    exact strIncludes_cons _ '[' _
      (strIncludes_append_left _ _ (by decide) (fT now))

/-- Witness for C5 (the universally quantified parts instantiated at a
concrete clock rendering). -/
theorem claim_C5_witness :
    (applyNetEvent c5Record (.loadingFinished (some 9) (some 512))).method
        = c5Record.method
    ∧ strIncludes "GET http://a 200".data
        (getNetLabel (fun _ => "12:00".data) 7 (some c5Record)) = true :=
  ⟨(claim_C5_patch_merge.1 c5Record (some 9) (some 512)).1,
   claim_C5_patch_merge.2.2.2.2.2 (fun _ => "12:00".data) 7⟩

/-! ### Node id uniqueness (C9) -/

mutual

/-- All ids carried by a node's subtree, in pre-order. -/
def nodeIds : LogNode → List (List Char)
  | .mk i _ _ _ _ _ _ _ _ _ _ _ c =>
    i :: (match c with | some cs => listIds cs | none => [])

/-- All ids carried by a forest. -/
def listIds : List LogNode → List (List Char)
  | [] => []
  | n :: rest => nodeIds n ++ listIds rest

end

/-- A store with two single-argument entries, each argument expandable. -/
def dupStore : LogStore :=
  { emptyLogStore with
      tree := [entryNode (nId 1) "e1".data [obA] none,
               entryNode (nId 2) "e2".data [obB] none],
      nextId := 2 }

def dupRun : LogRun := { store := dupStore, pending := none, fetchCount := 0 }

/-- Expand both entries (auto-expanding their single argument), each
property fetch completing at the same clock millisecond (`Date.now() = 5`). -/
def dupScript : List LogCmd :=
  [.select "n1".data, .toggle,
   .completeOk (getPropertiesResult 5 [("x".data, obB, true)]),
   .select "n2".data, .toggle,
   .completeOk (getPropertiesResult 5 [("y".data, obA, true)])]

/-- Claim C9 (counterexample) — Two `getProperties` calls completing in the
same millisecond both restart the per-call counter, so both produce a
child with id `prop_1_5`: after the script, the store simultaneously
holds two distinct nodes carrying that id — the ids of all nodes ever
created are not pairwise distinct. -/
theorem claim_C9_counterexample :
    (listIds (runLog dupRun dupScript).store.tree).count "prop_1_5".data = 2
    ∧ ¬ (listIds (runLog dupRun dupScript).store.tree).Nodup := by
  constructor
  · decide
  · decide

def charToDigit (c : Char) : Nat :=
  match c with
  | '0' => 0 | '1' => 1 | '2' => 2 | '3' => 3 | '4' => 4
  | '5' => 5 | '6' => 6 | '7' => 7 | '8' => 8 | '9' => 9
  | _ => 0

theorem charToDigit_digitChar (d : Nat) (h : d < 10) :
    charToDigit (digitChar d) = d := by
  interval_cases d <;> rfl

/-- Little-endian decimal value of a digit list. -/
def ofDigs : List Nat → Nat
  | [] => 0
  | d :: ds => d + 10 * ofDigs ds

theorem natDigitsRev_lt (fuel : Nat) : ∀ n d, d ∈ natDigitsRev fuel n → d < 10 := by
  induction fuel with
  | zero => intro n d h; simp [natDigitsRev] at h
  | succ f ih =>
    intro n d h
    rw [natDigitsRev] at h
    by_cases h0 : n = 0
    · rw [if_pos h0] at h
      simp at h
    · rw [if_neg h0] at h
      rcases List.mem_cons.mp h with h1 | h2
      · subst h1
        exact Nat.mod_lt n (by norm_num)
      · exact ih (n / 10) d h2

theorem ofDigs_natDigitsRev : ∀ fuel n, n ≤ fuel →
    ofDigs (natDigitsRev fuel n) = n := by
  intro fuel
  induction fuel with
  | zero =>
    intro n h
    interval_cases n
    rfl
  | succ f ih =>
    intro n h
    rw [natDigitsRev]
    by_cases h0 : n = 0
    · rw [if_pos h0, h0]
      rfl
    · rw [if_neg h0, ofDigs]
      have hdiv : n / 10 ≤ f := by
        have := Nat.div_lt_self (Nat.pos_of_ne_zero h0) (by norm_num : 1 < 10)
        omega
      rw [ih (n / 10) hdiv]
      exact Nat.mod_add_div n 10

theorem map_digitChar_inj : ∀ (l1 l2 : List Nat), (∀ d ∈ l1, d < 10) →
    (∀ d ∈ l2, d < 10) → l1.map digitChar = l2.map digitChar → l1 = l2
  | [], [], _, _, _ => rfl
  | [], _ :: _, _, _, h => by simp at h
  | _ :: _, [], _, _, h => by simp at h
  | a :: l1, b :: l2, h1, h2, h => by
    simp only [List.map_cons, List.cons.injEq] at h
    have ha := h1 a (List.mem_cons_self a l1)
    have hb := h2 b (List.mem_cons_self b l2)
    have hab : a = b := by
      have hc := congrArg charToDigit h.1
      rwa [charToDigit_digitChar a ha, charToDigit_digitChar b hb] at hc
    rw [hab, map_digitChar_inj l1 l2
      (fun d hd => h1 d (List.mem_cons_of_mem _ hd))
      (fun d hd => h2 d (List.mem_cons_of_mem _ hd)) h.2]

theorem natStr_eq_singleton_zero (n : Nat) (h : natStr n = ['0']) : n = 0 := by
  by_contra h0
  unfold natStr at h
  rw [if_neg h0] at h
  have h2 := congrArg List.reverse h
  rw [List.reverse_reverse] at h2
  have h3 : natDigitsRev n n = [0] := by
    refine map_digitChar_inj _ [0] (fun d hd => natDigitsRev_lt n n d hd) ?_ ?_
    · intro d hd
      simp at hd
      omega
    · simpa using h2
  have h4 := ofDigs_natDigitsRev n n le_rfl
  rw [h3] at h4
  simp [ofDigs] at h4
  exact h0 h4.symm

theorem natStr_inj : ∀ m n : Nat, natStr m = natStr n → m = n := by
  have key : ∀ n : Nat, n ≠ 0 → ∀ m : Nat, natStr m = natStr n → m ≠ 0 → m = n := by
    intro n hn m h hm
    unfold natStr at h
    rw [if_neg hm, if_neg hn] at h
    have h2 := congrArg List.reverse h
    rw [List.reverse_reverse, List.reverse_reverse] at h2
    have h3 := map_digitChar_inj _ _ (fun d hd => natDigitsRev_lt m m d hd)
      (fun d hd => natDigitsRev_lt n n d hd) h2
    have hm' := ofDigs_natDigitsRev m m le_rfl
    have hn' := ofDigs_natDigitsRev n n le_rfl
    rw [← hm', ← hn', h3]
  intro m n h
  by_cases hm : m = 0 <;> by_cases hn : n = 0
  · rw [hm, hn]
  · subst hm
    exact (natStr_eq_singleton_zero n (h.symm.trans (rfl : natStr 0 = ['0']))).symm
  · subst hn
    exact natStr_eq_singleton_zero m (h.trans (rfl : natStr 0 = ['0']))
  · exact key n hn m h hm

theorem digitChar_mem (d : Nat) :
    digitChar d ∈ (['0','1','2','3','4','5','6','7','8','9'] : List Char) := by
  unfold digitChar
  split <;> decide

theorem natStr_chars (n : Nat) (c : Char) (h : c ∈ natStr n) :
    c ∈ (['0','1','2','3','4','5','6','7','8','9'] : List Char) := by
  unfold natStr at h
  by_cases h0 : n = 0
  · rw [if_pos h0] at h
    simp at h
    rw [h]
    decide
  · rw [if_neg h0] at h
    rw [List.mem_reverse] at h
    obtain ⟨d, _, hd⟩ := List.mem_map.mp h
    rw [← hd]
    exact digitChar_mem d

theorem colon_not_mem_natStr (n : Nat) : ':' ∉ natStr n := by
  intro h
  have := natStr_chars n ':' h
  simp at this

theorem underscore_not_mem_natStr (n : Nat) : '_' ∉ natStr n := by
  intro h
  have := natStr_chars n '_' h
  simp at this

theorem append_sep_inj (sep : Char) : ∀ (a a' b b' : List Char), sep ∉ a →
    sep ∉ a' → a ++ sep :: b = a' ++ sep :: b' → a = a' ∧ b = b'
  | [], [], b, b', _, _, h => by
    simp only [List.nil_append, List.cons.injEq] at h
    exact ⟨rfl, h.2⟩
  | [], x :: a', b, b', _, ha', h => by
    simp only [List.nil_append, List.cons_append, List.cons.injEq] at h
    exact absurd (h.1 ▸ List.mem_cons_self x a') ha'
  | x :: a, [], b, b', ha, _, h => by
    simp only [List.nil_append, List.cons_append, List.cons.injEq] at h
    exact absurd (h.1.symm ▸ List.mem_cons_self x a) ha
  | x :: a, y :: a', b, b', ha, ha', h => by
    simp only [List.cons_append, List.cons.injEq] at h
    obtain ⟨hxy, hrest⟩ := h
    have hr := append_sep_inj sep a a' b b'
      (fun hm => ha (List.mem_cons_of_mem x hm))
      (fun hm => ha' (List.mem_cons_of_mem y hm)) hrest
    exact ⟨by rw [hxy, hr.1], hr.2⟩

/-- The id generators of the program: the per-store monotonic counters
(`` `n${k}` `` for the log store, `` `net_n${k}` `` for the network store),
entry-argument materialization (`` `${entryId}:arg:${i}` `` where the entry
id came from the log counter), and property-fetch results
(`` `prop_${j+1}_${t}` `` with per-call index `j` and call millisecond `t`). -/
inductive IdGen
  | counter (k : Nat)
  | entryArg (e : Nat) (i : Nat)
  | propResult (t : Nat) (j : Nat)
  | netCounter (k : Nat)
deriving DecidableEq, Repr

/-- The id string each generator descriptor produces. -/
def genId : IdGen → List Char
  | .counter k => nId k
  | .entryArg e i => argIdOf (nId e) i
  | .propResult t j => propIdOf t j
  | .netCounter k => netNId k

theorem netNId_eq (k : Nat) : netNId k = 'n' :: 'e' :: 't' :: '_' :: 'n' :: natStr k := rfl

theorem argIdOf_nId (e i : Nat) :
    argIdOf (nId e) i = 'n' :: (natStr e ++ ':' :: ('a' :: 'r' :: 'g' :: ':' :: natStr i)) := by
  simp [argIdOf, nId, List.append_assoc]

theorem propIdOf_eq (t j : Nat) :
    propIdOf t j = 'p' :: 'r' :: 'o' :: 'p' :: '_' :: (natStr (j + 1) ++ '_' :: natStr t) := by
  simp [propIdOf, List.append_assoc]

theorem genId_injective : Function.Injective genId := by
  intro g1 g2 h
  cases g1 with
  | counter k =>
    cases g2 with
    | counter k' =>
      simp only [genId, nId, List.cons.injEq] at h
      rw [natStr_inj k k' h.2]
    | entryArg e i =>
      rw [genId, genId, nId, argIdOf_nId] at h
      simp only [List.cons.injEq] at h
      exact absurd (h.2 ▸ (by simp : ':' ∈ natStr e ++ ':' :: ('a' :: 'r' :: 'g' :: ':' :: natStr i)))
        (colon_not_mem_natStr k)
    | propResult t j =>
      rw [genId, genId, nId, propIdOf_eq] at h
      simp at h
    | netCounter k' =>
      rw [genId, genId, nId, netNId_eq] at h
      simp only [List.cons.injEq] at h
      have : 'e' ∈ natStr k := by
        rw [h.2]
        simp
      have := natStr_chars k 'e' this
      simp at this
  | entryArg e i =>
    cases g2 with
    | counter k' =>
      rw [genId, genId, argIdOf_nId, nId] at h
      simp only [List.cons.injEq] at h
      exact absurd (h.2 ▸ (by simp : ':' ∈ natStr e ++ ':' :: ('a' :: 'r' :: 'g' :: ':' :: natStr i)))
        (colon_not_mem_natStr k')
    | entryArg e' i' =>
      rw [genId, genId, argIdOf_nId, argIdOf_nId] at h
      simp only [List.cons.injEq, true_and] at h
      have hp := append_sep_inj ':' _ _ _ _ (colon_not_mem_natStr e)
        (colon_not_mem_natStr e') h
      have he := natStr_inj e e' hp.1
      have htail := hp.2
      simp only [List.cons.injEq, true_and] at htail
      have hi := natStr_inj i i' htail
      rw [he, hi]
    | propResult t j =>
      rw [genId, genId, argIdOf_nId, propIdOf_eq] at h
      simp at h
    | netCounter k' =>
      rw [genId, genId, argIdOf_nId, netNId_eq] at h
      simp only [List.cons.injEq, true_and] at h
      have hc : ':' ∈ 'e' :: 't' :: '_' :: 'n' :: natStr k' := by
        rw [← h]
        simp
      simp only [List.mem_cons] at hc
      rcases hc with h1 | h1 | h1 | h1 | h1
      · exact absurd h1 (by decide)
      · exact absurd h1 (by decide)
      · exact absurd h1 (by decide)
      · exact absurd h1 (by decide)
      · exact absurd h1 (colon_not_mem_natStr k')
  | propResult t j =>
    cases g2 with
    | counter k' =>
      rw [genId, genId, nId, propIdOf_eq] at h
      simp at h
    | entryArg e' i' =>
      rw [genId, genId, argIdOf_nId, propIdOf_eq] at h
      simp at h
    | propResult t' j' =>
      rw [genId, genId, propIdOf_eq, propIdOf_eq] at h
      simp only [List.cons.injEq, true_and] at h
      have hp := append_sep_inj '_' _ _ _ _ (underscore_not_mem_natStr (j + 1))
        (underscore_not_mem_natStr (j' + 1)) h
      have hj := natStr_inj (j + 1) (j' + 1) hp.1
      have ht := natStr_inj t t' hp.2
      have hj2 : j = j' := by omega
      rw [ht, hj2]
    | netCounter k' =>
      rw [genId, genId, propIdOf_eq, netNId_eq] at h
      simp at h
  | netCounter k =>
    cases g2 with
    | counter k' =>
      rw [genId, genId, nId, netNId_eq] at h
      simp only [List.cons.injEq] at h
      have : 'e' ∈ natStr k' := by
        rw [← h.2]
        simp
      have := natStr_chars k' 'e' this
      simp at this
    | entryArg e' i' =>
      rw [genId, genId, argIdOf_nId, netNId_eq] at h
      simp only [List.cons.injEq, true_and] at h
      have hc : ':' ∈ 'e' :: 't' :: '_' :: 'n' :: natStr k := by
        rw [h]
        simp
      simp only [List.mem_cons] at hc
      rcases hc with h1 | h1 | h1 | h1 | h1
      · exact absurd h1 (by decide)
      · exact absurd h1 (by decide)
      · exact absurd h1 (by decide)
      · exact absurd h1 (by decide)
      · exact absurd h1 (colon_not_mem_natStr k)
    | propResult t' j' =>
      rw [genId, genId, propIdOf_eq, netNId_eq] at h
      simp at h
    | netCounter k' =>
      rw [genId, genId, netNId_eq, netNId_eq] at h
      simp only [List.cons.injEq, true_and] at h
      rw [natStr_inj k k' h]

/-- Claim C9 (amended) — Node id uniqueness under the code's generation
discipline: the four id generators produce pairwise-distinct strings for
distinct descriptors — distinct counter values (guaranteed by the
monotonic `nextNodeIdRef`s), distinct `(entry, index)` pairs, and
distinct `(millisecond, index)` pairs for property fetches (which
requires distinct `getProperties` calls to observe distinct `Date.now()`
milliseconds — the code does not guarantee this, see the counterexample);
and no updater used by the stores ever changes an existing node's id. -/
theorem claim_C9_amended :
    Function.Injective genId
    ∧ (∀ (n : LogNode) (e b : Bool) (c : Option (List LogNode))
        (l : Option (List Char)),
        (n.setExpanded e).id = n.id
        ∧ (n.setChildren c).id = n.id
        ∧ (n.setLoadingChildren b c).id = n.id
        ∧ (n.setLabel l).id = n.id
        ∧ (n.setLabelChildren l c).id = n.id
        ∧ (n.setExpandedChildren e c).id = n.id
        ∧ (n.setExpLoadChildren c).id = n.id) := by
  refine ⟨genId_injective, ?_⟩
  intro n e b c l
  cases n
  exact ⟨rfl, rfl, rfl, rfl, rfl, rfl, rfl⟩

/-- Witness for the amended C9 at concrete descriptors. -/
theorem claim_C9_amended_witness :
    IdGen.propResult 5 0 = IdGen.propResult 5 0
    ∧ (needleChild.setExpanded true).id = needleChild.id :=
  ⟨claim_C9_amended.1 (by decide : genId (.propResult 5 0) = genId (.propResult 5 0)),
   (claim_C9_amended.2 needleChild true false none none).1⟩
